import Mathlib

set_option linter.unusedVariables false

deriving instance DecidableEq for Except

set_option maxRecDepth 10000

/-!
Shallow embedding of `setup-healthcare-relocation-workflow.mjs`
(the setup script for the healthcare-relocation Conductor project).

The script is a single sequential Node program.  We embed it as follows:

* network effects: the outside world is a function `World.fetch` from
  (method, url) to a `FetchResult` (either a network-level rejection or an
  HTTP response with a status and a structured body).  Every issued call is
  recorded in a `Trace`; the embedding of a piece of the script is a value
  of `M α := Except RunErr α × Trace` (the trace holds the calls issued by
  that piece, errors model thrown JS exceptions).
* the file system (`fs.existsSync`, `readdirSync`, `readFileSync`,
  `JSON.parse` of documents) is a record `FS` of pure functions;
  a parsed JSON document is abstracted to a `Doc` (its `name` field plus an
  opaque payload), which is all the script ever reads from one.
* `process.env` (after the `.env` loading, which is plumbing) is the
  record `EnvVars`; command-line flags are parsed from `List String` argv
  by `argHas` / `argValue` exactly as in the script.
-/

/-! ### JS string primitives -/

/-- JS `String.prototype.endsWith`, on Lean strings via their char lists. -/
def jsEndsWith (s suffix : String) : Bool :=
  List.isSuffixOf suffix.data s.data

/-- JS `String.prototype.startsWith`. -/
def jsStartsWith (s pre : String) : Bool :=
  List.isPrefixOf pre.data s.data

/-- JS truthiness of a possibly-absent string (`undefined` and `""` are falsy). -/
def truthy : Option String → Bool
  | none => false
  | some s => !(s == "")

/-- JS `a ?? b ?? c` over possibly-absent strings: first non-absent value
(an empty string is *not* skipped by `??`). -/
def firstSome (l : List (Option String)) : Option String :=
  l.findSome? id

/-- Hex digits used by percent-encoding. -/
def hexChars : List Char :=
  ['0', '1', '2', '3', '4', '5', '6', '7', '8', '9', 'A', 'B', 'C', 'D', 'E', 'F']

def hexChar (n : Nat) : Char :=
  hexChars.getD n '0'

/-- UTF-8 bytes of a code point (as used by `encodeURIComponent`). -/
def utf8Bytes (n : Nat) : List Nat :=
  if n < 0x80 then [n]
  else if n < 0x800 then [0xC0 + n / 64, 0x80 + n % 64]
  else if n < 0x10000 then [0xE0 + n / 4096, 0x80 + (n / 64) % 64, 0x80 + n % 64]
  else [0xF0 + n / 262144, 0x80 + (n / 4096) % 64, 0x80 + (n / 64) % 64, 0x80 + n % 64]

def percentEncodeByte (b : Nat) : List Char :=
  ['%', hexChar (b / 16), hexChar (b % 16)]

/-- The characters `encodeURIComponent` leaves intact:
`A-Z a-z 0-9 - _ . ! ~ * ' ( )`. -/
def uriUnreserved (c : Char) : Bool :=
  c.isAlpha || c.isDigit || c == '-' || c == '_' || c == '.' || c == '!' ||
    c == '~' || c == '*' || c == '\'' || c == '(' || c == ')'

/-- JS `encodeURIComponent`. -/
def encodeURIComponent (s : String) : String :=
  String.mk (s.data.foldr
    (fun c acc =>
      (if uriUnreserved c then [c]
       else (utf8Bytes c.toNat).foldr (fun b a => percentEncodeByte b ++ a) []) ++ acc)
    [])

/-- `path.join(a, b)` for the simple relative joins the script performs. -/
def pathJoin (a b : String) : String := a ++ "/" ++ b

/-- Whitespace as JS `String.prototype.trim` sees it (the code points the
script's inputs can contain). -/
def jsWhitespace (c : Char) : Bool :=
  c == ' ' || c == '\t' || c == '\n' || c == '\r'

/-- JS `String.prototype.trim`. -/
def jsTrim (s : String) : String :=
  String.mk (((s.data.dropWhile jsWhitespace).reverse.dropWhile jsWhitespace).reverse)

/-- JS `String.prototype.split(",")`. -/
def splitCommasAux : List Char → List Char → List String
  | [], acc => [String.mk acc.reverse]
  | c :: rest, acc =>
    if c == ',' then String.mk acc.reverse :: splitCommasAux rest []
    else splitCommasAux rest (c :: acc)

def jsSplitCommas (s : String) : List String := splitCommasAux s.data []

/-! ### `normalizeBaseApiUrl` (script lines 124-132) -/

/-- The effect of `.replace(/\/api\/?$/, "")`: strip one trailing `/api` or
`/api/`.  The regex is end-anchored, so a match is a suffix of length 4 or 5;
greediness prefers the length-5 match, and a string cannot end in both. -/
def jsStripApiSuffix (s : String) : String :=
  if jsEndsWith s "/api/" then String.mk (s.data.take (s.data.length - 5))
  else if jsEndsWith s "/api" then String.mk (s.data.take (s.data.length - 4))
  else s

/-- Environment variables read by the script (`process.env` after `.env`
loading; `none` = unset). -/
structure EnvVars where
  conductorServerApiUrl : Option String
  conductorServerUrl : Option String
  conductorAccessToken : Option String
  conductorKeyId : Option String
  conductorAuthKey : Option String
  conductorKey : Option String
  conductorKeySecret : Option String
  conductorAuthSecret : Option String
  conductorSecret : Option String
  openaiIntegrationName : Option String
  openaiApiKey : Option String
  openaiModels : Option String
  promptModelAssociation : Option String
deriving Repr, DecidableEq

/-- `normalizeBaseApiUrl()`: prefer `CONDUCTOR_SERVER_API_URL`, then
`CONDUCTOR_SERVER_URL`, else the public default; strip a trailing
`/api(/)` and append `/api`. -/
def normalizeBaseApiUrl (e : EnvVars) : String :=
  if truthy e.conductorServerApiUrl then jsStripApiSuffix (e.conductorServerApiUrl.getD "") ++ "/api"
  else if truthy e.conductorServerUrl then jsStripApiSuffix (e.conductorServerUrl.getD "") ++ "/api"
  else "https://developer.orkescloud.com/api"

/-! ### CLI parsing (script lines 22-37, 544) -/

/-- `argHas(flag)`: `process.argv.includes(flag)`. -/
def argHas (argv : List String) (flag : String) : Bool :=
  argv.contains flag

/-- `argValue(flag, fallback)`: value after the first occurrence of `flag`. -/
def argValue (argv : List String) (flag : String) (fallback : String) : String :=
  match argv.findIdx? (fun a => a == flag) with
  | none => fallback
  | some idx => (argv.get? (idx + 1)).getD fallback

/-- `process.argv.find((a) => a.endsWith(".json") && !a.startsWith("-"))`
(script line 544). -/
def positionalJsonOf (argv : List String) : Option String :=
  argv.find? (fun a => jsEndsWith a ".json" && !jsStartsWith a "-")

/-- The run configuration: CLI flags plus environment variables. -/
structure Config where
  plan : Bool
  noOpenai : Bool
  workflowsDir : String
  promptsDir : String
  formsDir : String
  positionalJson : Option String
  envVars : EnvVars
deriving Repr, DecidableEq

/-- How the script's module-level flags are computed from `process.argv`. -/
def Config.ofArgv (argv : List String) (e : EnvVars) : Config :=
  { plan := argHas argv "--plan" || argHas argv "--dry-run"
    noOpenai := argHas argv "--no-openai"
    workflowsDir := argValue argv "--workflows-dir" "./workflows"
    promptsDir := argValue argv "--prompts-dir" "./workflows/prompts"
    formsDir := argValue argv "--forms-dir" "./forms"
    positionalJson := positionalJsonOf argv
    envVars := e }

/-! ### Data model: documents, task definitions, requests, responses -/

/-- A parsed JSON document (form or workflow): its `name` field (absent or
present, possibly empty) and an opaque rest. -/
structure Doc where
  name : Option String
  payload : String
deriving Repr, DecidableEq

/-- A task-definition record as built in the `WORKER_TASKS` loop
(script lines 393-400). -/
structure TaskDef where
  name : String
  description : String
  retryCount : Nat
  timeoutSeconds : Nat
  responseTimeoutSeconds : Nat
  ownerEmail : String
deriving Repr, DecidableEq

/-- Request bodies of the calls the script issues (payload details the
claims do not inspect are collapsed to tags). -/
inductive ReqBody where
  | empty
  | tokenReq
  | integrationPayload
  | modelPayload
  | taskdefList (defs : List TaskDef)
  | formDoc (d : Doc)
  | promptText (s : String)
  | workflowDoc (d : Doc)
deriving Repr, DecidableEq

/-- One issued network request. -/
structure NetCall where
  method : String
  url : String
  body : ReqBody
deriving Repr, DecidableEq

/-- Structured response bodies (what the script extracts from response
text: a token field, a template list's `name` fields, a user id). -/
inductive RespBody where
  | empty
  | text (s : String)
  | tokenResp (token : Option String)
  | templates (ts : List (Option String))
  | userInfoResp (name id : Option String)
deriving Repr, DecidableEq

/-- The outcome of one `fetch`: a rejection (network error) or a response. -/
inductive FetchResult where
  | netError
  | resp (status : Nat) (body : RespBody)
deriving Repr, DecidableEq

/-- The remote side: answers every request deterministically. -/
structure World where
  fetch : String → String → FetchResult

/-- Execution environment: the `PLAN` flag and the remote world. -/
structure Env where
  plan : Bool
  world : World

/-- Thrown errors. -/
inductive RunErr where
  | configError
  | noToken
  | missingEnv (name : String)
  | netError (url : String)
  | httpError (status : Nat) (url : String)
  | workflowsDirMissing (dir : String)
deriving Repr, DecidableEq

abbrev Trace := List NetCall

/-- A computation of the script: a result (or thrown error) together with
the calls it issued. -/
abbrev M (α : Type) : Type := Except RunErr α × Trace

def M.ok {α : Type} (a : α) : M α := (Except.ok a, [])

def M.err {α : Type} (e : RunErr) : M α := (Except.error e, [])

def M.bind {α β : Type} (x : M α) (f : α → M β) : M β :=
  match x.1 with
  | Except.ok a => ((f a).1, x.2 ++ (f a).2)
  | Except.error e => (Except.error e, x.2)

/-- JS `try { x } catch { fallback }`: calls already issued stay issued. -/
def M.tryCatch {α : Type} (x : M α) (fallback : α) : M α :=
  match x.1 with
  | Except.ok a => (Except.ok a, x.2)
  | Except.error _ => (Except.ok fallback, x.2)

/-! ### HTTP helpers (script lines 139-220) -/

/-- `Response.ok`: status in 200-299. -/
def resOk (s : Nat) : Bool := 200 ≤ s && s < 300

/-- The requests `http` lets through in PLAN mode: GETs, and a POST to a
url matching `/\/token\/?$/` (script line 143). -/
def allowInPlan (method url : String) : Bool :=
  method == "GET" ||
    (method == "POST" && (jsEndsWith url "/token" || jsEndsWith url "/token/"))

def gcall (url : String) : NetCall := ⟨"GET", url, ReqBody.empty⟩

/-- `http(method, url, {body, okStatuses})` (script lines 139-184): in PLAN
mode non-allowed requests are suppressed and an empty body returned;
otherwise the request is issued, a rejection propagates, and a status not
in `okStatuses` throws. -/
def http (env : Env) (method url : String) (body : ReqBody) (okStatuses : List Nat) : M RespBody :=
  if env.plan && !allowInPlan method url then
    (Except.ok RespBody.empty, [])
  else
    match env.world.fetch method url with
    | FetchResult.netError => (Except.error (RunErr.netError url), [⟨method, url, body⟩])
    | FetchResult.resp status b =>
      if okStatuses.contains status then (Except.ok b, [⟨method, url, body⟩])
      else (Except.error (RunErr.httpError status url), [⟨method, url, body⟩])

/-- `exists(url, {token})` (script lines 186-193): a plain GET; a rejection
is caught and yields `false`; otherwise the answer is `res.ok`.  (Named
`existsCheck` because `exists` is reserved in Lean.) -/
def existsCheck (env : Env) (url : String) (token : Option String) : M Bool :=
  match env.world.fetch "GET" url with
  | FetchResult.netError => (Except.ok false, [gcall url])
  | FetchResult.resp status _ => (Except.ok (resOk status), [gcall url])

/-- `listHumanTemplates` (script lines 195-207): GET the template list; a
non-ok status or unparseable/non-array body yields `[]`; a rejection of the
fetch itself propagates (there is no try/catch around it). -/
def listHumanTemplates (env : Env) (api : String) (token : Option String) :
    M (List (Option String)) :=
  match env.world.fetch "GET" (api ++ "/human/template") with
  | FetchResult.netError =>
      (Except.error (RunErr.netError (api ++ "/human/template")), [gcall (api ++ "/human/template")])
  | FetchResult.resp status b =>
      (Except.ok
        (if resOk status then
          match b with
          | RespBody.templates ts => ts
          | _ => []
        else []),
       [gcall (api ++ "/human/template")])

/-- `humanTemplateExists` (script lines 209-213). -/
def humanTemplateExists (env : Env) (api : String) (token : Option String) (name : String) :
    M Bool :=
  M.bind (listHumanTemplates env api token)
    (fun ts => M.ok (ts.any (fun t => t == some name)))

/-- `existsGet(url, {token})` (script lines 216-220): in PLAN mode answer
`false` without any request; otherwise a plain GET whose rejection is NOT
caught (it propagates), with answer `res.ok`. -/
def existsGet (env : Env) (url : String) (token : Option String) : M Bool :=
  if env.plan then (Except.ok false, [])
  else
    match env.world.fetch "GET" url with
    | FetchResult.netError => (Except.error (RunErr.netError url), [gcall url])
    | FetchResult.resp status _ => (Except.ok (resOk status), [gcall url])

/-! ### The file system collaborator -/

/-- Pure view of the parts of the file system the script touches. -/
structure FS where
  formsDirExists : Bool
  formsFiles : List String
  workflowsDirExists : Bool
  workflowFiles : List String
  fileExists : String → Bool
  readDoc : String → Doc
  readTextF : String → String
  resolve : String → String

/-! ### Project constants (script lines 40-53) -/

def WORKER_TASKS : List String :=
  ["healthcare_provider_finder", "communication_drafter",
   "medical_system_navigator", "prescription_transition_manager"]

structure PromptSpec where
  name : String
  file : String
deriving Repr, DecidableEq

def REQUIRED_PROMPTS : List PromptSpec :=
  [⟨"MedicalUserIntakeAnalyzer", "medical-user-intake.json"⟩,
   ⟨"CombineAnswers", "combine-answers.json"⟩,
   ⟨"AssembleHealthPlan", "assemble-health-plan.json"⟩]

def DEFAULT_OPENAI_MODELS : List String :=
  ["gpt-4.1", "gpt-4.1-mini", "gpt-4o", "gpt-4o-mini"]

/-- `mustEnv(name)` succeeds iff the variable is set to a non-blank value. -/
def mustEnvOk (v : Option String) : Bool :=
  match v with
  | none => false
  | some s => !(jsTrim s == "")

/-- The `models` list (script lines 303-306):
`(OPENAI_MODELS && OPENAI_MODELS.split(",").map(trim).filter(Boolean)) || DEFAULT`.
Note a set-but-blank list like `","` yields the (truthy) empty array. -/
def parseModels (v : Option String) : List String :=
  match v with
  | none => DEFAULT_OPENAI_MODELS
  | some s =>
    if s == "" then DEFAULT_OPENAI_MODELS
    else ((jsSplitCommas s).map (fun x => jsTrim x)).filter (fun x => !(x == ""))

/-- `userInfo?.id` of a parsed response body. -/
def respUserId : RespBody → Option String
  | RespBody.userInfoResp _ i => i
  | _ => none

/-- `tokenResp.token` of a parsed response body. -/
def respToken : RespBody → Option String
  | RespBody.tokenResp t => t
  | _ => none

/-! ### URL builders -/

def integUrlOf (api integName : String) : String :=
  api ++ "/integrations/provider/" ++ integName

def modelUrl (api integName m : String) : String :=
  api ++ "/integrations/provider/" ++ integName ++ "/integration/" ++ encodeURIComponent m

def tdUrl (api name : String) : String :=
  api ++ "/metadata/taskdefs/" ++ encodeURIComponent name

def tdCreateUrl (api : String) : String := api ++ "/metadata/taskdefs"

def formListUrl (api : String) : String := api ++ "/human/template"

def formCreateUrl (api : String) : String := api ++ "/human/template?newVersion=false"

def promptUrl (api name : String) : String :=
  api ++ "/prompts/" ++ encodeURIComponent name

def promptCreateUrl (api name file encodedModels : String) : String :=
  api ++ "/prompts/" ++ encodeURIComponent name ++ "?description=" ++
    encodeURIComponent ("Auto-registered from " ++ file) ++ "&models=" ++ encodedModels

def wfUrl (api name : String) : String :=
  api ++ "/metadata/workflow/" ++ encodeURIComponent name

def wfCreateUrl (api : String) : String :=
  api ++ "/metadata/workflow?overwrite=false&newVersion=false"

/-! ### Authentication (script lines 243-293) -/

/-- The auth section: a truthy `CONDUCTOR_ACCESS_TOKEN` wins; otherwise a
key/secret pair (each via its `??` chain of alternates) is exchanged at
`POST {API}/token`; missing material throws; a missing token field in the
exchange response throws unless in PLAN mode. -/
def authSection (env : Env) (ev : EnvVars) (api : String) : M (Option String) :=
  if truthy ev.conductorAccessToken then M.ok ev.conductorAccessToken
  else
    let keyId := firstSome
      [ev.conductorKeyId, ev.conductorAuthKey, ev.conductorKey]
    let keySecret := firstSome
      [ev.conductorKeySecret, ev.conductorAuthSecret, ev.conductorSecret]
    if !truthy keyId || !truthy keySecret then M.err RunErr.configError
    else
      M.bind (http env "POST" (api ++ "/token") ReqBody.tokenReq [200]) (fun resp =>
        let token := respToken resp
        if !truthy token && !env.plan then M.err RunErr.noToken
        else M.ok token)

/-! ### OpenAI integration pass (script lines 296-377) -/

structure IntegReport where
  stepSkipped : Bool
  integExisting : Bool
  integCreated : Bool
  modelsExisting : List String
  modelsMissing : List String
  modelsAdded : Nat
  modelsSkipped : Nat
deriving Repr, DecidableEq

def emptyIntegReport : IntegReport := ⟨true, false, false, [], [], 0, 0⟩

structure ModelsAcc where
  existing : List String
  missing : List String
  added : Nat
  presentCount : Nat
deriving Repr, DecidableEq

/-- The `for (const modelName of models)` loop (script lines 344-367):
check with `existsGet`; if missing, PLAN prints a line, APPLY issues the
model's own POST and counts it. -/
def modelsLoop (env : Env) (api integName : String) (token : Option String) :
    List String → M ModelsAcc
  | [] => M.ok ⟨[], [], 0, 0⟩
  | m :: rest =>
    M.bind (existsGet env (modelUrl api integName m) token) (fun ex =>
      if ex then
        M.bind (modelsLoop env api integName token rest) (fun r =>
          M.ok ⟨m :: r.existing, r.missing, r.added, r.presentCount + 1⟩)
      else
        if env.plan then
          M.bind (modelsLoop env api integName token rest) (fun r =>
            M.ok ⟨r.existing, m :: r.missing, r.added, r.presentCount⟩)
        else
          M.bind (http env "POST" (modelUrl api integName m) ReqBody.modelPayload [200, 201, 204])
            (fun _ =>
              M.bind (modelsLoop env api integName token rest) (fun r =>
                M.ok ⟨r.existing, m :: r.missing, r.added + 1, r.presentCount⟩)))

/-- The OpenAI integration section: skipped under `--no-openai`;
`mustEnv("OPENAI_API_KEY")`; `existsGet` on the integration (no
`encodeURIComponent` on the integration name in the source), create it
when absent (APPLY only), then the models loop. -/
def integrationPass (env : Env) (noOpenai : Bool) (ev : EnvVars) (api : String)
    (token : Option String) : M IntegReport :=
  if noOpenai then M.ok emptyIntegReport
  else
    if !mustEnvOk ev.openaiApiKey then M.err (RunErr.missingEnv "OPENAI_API_KEY")
    else
      let integName := ev.openaiIntegrationName.getD "openai"
      let models := parseModels ev.openaiModels
      let integUrl := integUrlOf api integName
      M.bind (existsGet env integUrl token) (fun integExists =>
        M.bind
          (if integExists then M.ok false
           else if env.plan then M.ok false
           else
             M.bind (http env "POST" integUrl ReqBody.integrationPayload [200, 201, 204])
               (fun _ => M.ok true))
          (fun integCreated =>
            M.bind (modelsLoop env api integName token models) (fun r =>
              M.ok ⟨false, integExists, integCreated, r.existing, r.missing,
                    r.added, r.presentCount⟩)))

/-! ### Task definitions pass (script lines 380-417) -/

/-- One record pushed onto `missingTaskDefs` (script lines 393-400). -/
def mkTaskDef (name : String) (userId : Option String) : TaskDef :=
  { name := name
    description := "Worker task for " ++ name
    retryCount := 2
    timeoutSeconds := 300
    responseTimeoutSeconds := 300
    ownerEmail := userId.getD "unknown" }

structure TaskDefReport where
  existing : List String
  missingTaskDefs : List TaskDef
deriving Repr, DecidableEq

/-- The `for (const name of WORKER_TASKS)` loop: `exists` on each taskdef
URL; missing names become full records. -/
def taskdefCheckLoop (env : Env) (api : String) (token : Option String) (userId : Option String) :
    List String → M (List String × List TaskDef)
  | [] => M.ok ([], [])
  | name :: rest =>
    M.bind (existsCheck env (tdUrl api name) token) (fun ex =>
      M.bind (taskdefCheckLoop env api token userId rest) (fun r =>
        if ex then M.ok (name :: r.1, r.2)
        else M.ok (r.1, mkTaskDef name userId :: r.2)))

/-- The task-definitions section: check all four, then (when any are
missing) ONE batched `POST {API}/metadata/taskdefs` carrying the whole
array (suppressed by `http` in PLAN mode). -/
def taskdefPass (env : Env) (api : String) (token : Option String) (userId : Option String) :
    M TaskDefReport :=
  M.bind (taskdefCheckLoop env api token userId WORKER_TASKS) (fun r =>
    if r.2.isEmpty then M.ok ⟨r.1, r.2⟩
    else
      M.bind (http env "POST" (tdCreateUrl api) (ReqBody.taskdefList r.2) [200, 204])
        (fun _ => M.ok ⟨r.1, r.2⟩))

/-! ### Forms pass (script lines 422-476) -/

structure FormsReport where
  dirMissing : Bool
  noFiles : Bool
  skippedInvalid : Nat
  existing : List String
  missing : List String
  created : Nat
  skipped : Nat
deriving Repr, DecidableEq

def emptyFormsReport (dirMissing noFiles : Bool) : FormsReport :=
  ⟨dirMissing, noFiles, 0, [], [], 0, 0⟩

structure FormsAcc where
  skippedInvalid : Nat
  existing : List String
  missing : List String
  created : Nat
  skipped : Nat
deriving Repr, DecidableEq

/-- The `for (const f of files)` loop (script lines 438-467): read the
document; a falsy `name` is skipped with a warning; a name in the cached
template set is counted skipped; otherwise a POST (suppressed in PLAN) and
`formsCreated++` — the counter advances in PLAN mode too. -/
def formsLoop (env : Env) (formsDir : String) (fsys : FS) (api : String) (token : Option String)
    (existingNames : List String) : List String → M FormsAcc
  | [] => M.ok ⟨0, [], [], 0, 0⟩
  | f :: rest =>
    let form := fsys.readDoc (pathJoin formsDir f)
    if !truthy form.name then
      M.bind (formsLoop env formsDir fsys api token existingNames rest) (fun r =>
        M.ok ⟨r.skippedInvalid + 1, r.existing, r.missing, r.created, r.skipped⟩)
    else
      let n := form.name.getD ""
      if existingNames.contains n then
        M.bind (formsLoop env formsDir fsys api token existingNames rest) (fun r =>
          M.ok ⟨r.skippedInvalid, n :: r.existing, r.missing, r.created, r.skipped + 1⟩)
      else
        M.bind (http env "POST" (formCreateUrl api) (ReqBody.formDoc form) [200, 204]) (fun _ =>
          M.bind (formsLoop env formsDir fsys api token existingNames rest) (fun r =>
            M.ok ⟨r.skippedInvalid, r.existing, n :: r.missing, r.created + 1, r.skipped⟩))

/-- The forms section: a missing forms dir (or no `.json` files) skips the
pass with an informational outcome; otherwise the template list is fetched
ONCE and each file reconciled against it. -/
def formsPass (env : Env) (formsDir : String) (fsys : FS) (api : String)
    (token : Option String) : M FormsReport :=
  if !fsys.formsDirExists then M.ok (emptyFormsReport true false)
  else
    let files := fsys.formsFiles.filter (fun f => jsEndsWith f ".json")
    if files.isEmpty then M.ok (emptyFormsReport false true)
    else
      M.bind (listHumanTemplates env api token) (fun templates =>
        let existingNames := (templates.filterMap id).filter (fun n => !(n == ""))
        M.bind (formsLoop env formsDir fsys api token existingNames files) (fun r =>
          M.ok ⟨false, false, r.skippedInvalid, r.existing, r.missing, r.created, r.skipped⟩))

/-! ### Prompts pass (script lines 482-537) -/

structure PromptsReport where
  fileMissing : List String
  existing : List String
  missing : List String
  created : Nat
  skipped : Nat
deriving Repr, DecidableEq

/-- The `for (const p of REQUIRED_PROMPTS)` loop: a missing prompt file is
warned and skipped; otherwise `exists` on the prompt URL and, when absent,
a POST of the raw file text (suppressed in PLAN; `promptsCreated++` runs in
PLAN mode too). -/
def promptsLoop (env : Env) (promptsDir : String) (fsys : FS) (api : String)
    (token : Option String) (encodedModels : String) : List PromptSpec → M PromptsReport
  | [] => M.ok ⟨[], [], [], 0, 0⟩
  | p :: rest =>
    let fp := pathJoin promptsDir p.file
    if !fsys.fileExists fp then
      M.bind (promptsLoop env promptsDir fsys api token encodedModels rest) (fun r =>
        M.ok ⟨p.name :: r.fileMissing, r.existing, r.missing, r.created, r.skipped⟩)
    else
      M.bind (existsCheck env (promptUrl api p.name) token) (fun ex =>
        if ex then
          M.bind (promptsLoop env promptsDir fsys api token encodedModels rest) (fun r =>
            M.ok ⟨r.fileMissing, p.name :: r.existing, r.missing, r.created, r.skipped + 1⟩)
        else
          M.bind
            (http env "POST" (promptCreateUrl api p.name p.file encodedModels)
              (ReqBody.promptText (fsys.readTextF fp)) [200, 204])
            (fun _ =>
              M.bind (promptsLoop env promptsDir fsys api token encodedModels rest) (fun r =>
                M.ok ⟨r.fileMissing, r.existing, p.name :: r.missing, r.created + 1, r.skipped⟩)))

/-- The prompts section (no directory existence check; per-file checks). -/
def promptsPass (env : Env) (promptsDir : String) (pma : Option String) (fsys : FS)
    (api : String) (token : Option String) : M PromptsReport :=
  let promptModelAssociation := pma.getD "openai:gpt-4o-mini"
  promptsLoop env promptsDir fsys api token (encodeURIComponent promptModelAssociation)
    REQUIRED_PROMPTS

/-! ### Workflows pass (script lines 540-593) -/

structure WorkflowsReport where
  skippedInvalid : Nat
  existing : List String
  missing : List String
  created : Nat
  skipped : Nat
deriving Repr, DecidableEq

/-- The `for (const wfFile of workflowFiles)` loop; `resolveFull` is
`path.resolve` when a positional `.json` argument is processed and
`path.join(WORKFLOWS_DIR, ·)` otherwise. -/
def workflowsLoop (env : Env) (fsys : FS) (api : String) (token : Option String)
    (resolveFull : String → String) : List String → M WorkflowsReport
  | [] => M.ok ⟨0, [], [], 0, 0⟩
  | wfFile :: rest =>
    let wf := fsys.readDoc (resolveFull wfFile)
    if !truthy wf.name then
      M.bind (workflowsLoop env fsys api token resolveFull rest) (fun r =>
        M.ok ⟨r.skippedInvalid + 1, r.existing, r.missing, r.created, r.skipped⟩)
    else
      let n := wf.name.getD ""
      M.bind (existsCheck env (wfUrl api n) token) (fun ex =>
        if ex then
          M.bind (workflowsLoop env fsys api token resolveFull rest) (fun r =>
            M.ok ⟨r.skippedInvalid, n :: r.existing, r.missing, r.created, r.skipped + 1⟩)
        else
          M.bind (http env "POST" (wfCreateUrl api) (ReqBody.workflowDoc wf) [200, 204]) (fun _ =>
            M.bind (workflowsLoop env fsys api token resolveFull rest) (fun r =>
              M.ok ⟨r.skippedInvalid, r.existing, n :: r.missing, r.created + 1, r.skipped⟩)))

/-- The workflows section: a missing workflows dir THROWS (script line
542); then either the single positional `.json` argument (path-resolved)
or the directory's `.json` files are processed. -/
def workflowsPass (env : Env) (workflowsDir : String) (positionalJson : Option String)
    (fsys : FS) (api : String) (token : Option String) : M WorkflowsReport :=
  if !fsys.workflowsDirExists then M.err (RunErr.workflowsDirMissing workflowsDir)
  else
    match positionalJson with
    | some p => workflowsLoop env fsys api token fsys.resolve [p]
    | none =>
        workflowsLoop env fsys api token (pathJoin workflowsDir)
          (fsys.workflowFiles.filter (fun f => jsEndsWith f ".json"))

/-! ### `main` (script lines 231-609) -/

structure Report where
  userId : Option String
  integ : IntegReport
  taskdefs : TaskDefReport
  forms : FormsReport
  prompts : PromptsReport
  workflows : WorkflowsReport
deriving Repr, DecidableEq

/-- The whole `main()`: auth, `GET /version` connectivity check, optional
`GET /token/userInfo` (errors swallowed), then the five passes in order. -/
def mainRun (cfg : Config) (fsys : FS) (w : World) : M Report :=
  let api := normalizeBaseApiUrl cfg.envVars
  let env : Env := ⟨cfg.plan, w⟩
  M.bind (authSection env cfg.envVars api) (fun token =>
    M.bind (http env "GET" (api ++ "/version") ReqBody.empty [200]) (fun _ =>
      M.bind (M.tryCatch (http env "GET" (api ++ "/token/userInfo") ReqBody.empty [200])
          RespBody.empty) (fun userInfo =>
        let userId := respUserId userInfo
        M.bind (integrationPass env cfg.noOpenai cfg.envVars api token) (fun integ =>
          M.bind (taskdefPass env api token userId) (fun tds =>
            M.bind (formsPass env cfg.formsDir fsys api token) (fun frm =>
              M.bind (promptsPass env cfg.promptsDir cfg.envVars.promptModelAssociation fsys
                  api token) (fun prm =>
                M.bind (workflowsPass env cfg.workflowsDir cfg.positionalJson fsys api token)
                  (fun wfs => M.ok ⟨userId, integ, tds, frm, prm, wfs⟩))))))))

/-- `main().catch((e) => { ...; process.exit(1) })`: the process exit code. -/
def runExit (cfg : Config) (fsys : FS) (w : World) : Nat :=
  match (mainRun cfg fsys w).1 with
  | Except.ok _ => 0
  | Except.error _ => 1

/-! ### Basic facts about `M` -/

theorem M.bind_ok_left {α β : Type} (a : α) (t : Trace) (f : α → M β) :
    M.bind (Except.ok a, t) f = ((f a).1, t ++ (f a).2) := rfl

theorem M.bind_err_left {α β : Type} (e : RunErr) (t : Trace) (f : α → M β) :
    M.bind (Except.error e, t) f = (Except.error e, t) := rfl

theorem M.bind_pure {α β : Type} (a : α) (f : α → M β) : M.bind (M.ok a) f = f a := by
  unfold M.bind M.ok
  simp

theorem M.bind_eq_ok {α β : Type} {x : M α} {f : α → M β} {b : β} {t : Trace}
    (h : M.bind x f = (Except.ok b, t)) :
    ∃ a t₁ t₂, x = (Except.ok a, t₁) ∧ f a = (Except.ok b, t₂) ∧ t = t₁ ++ t₂ := by
  obtain ⟨x1, x2⟩ := x
  cases x1 with
  | ok a =>
    refine ⟨a, x2, (f a).2, rfl, ?_, ?_⟩
    · have h1 : (f a).1 = Except.ok b := congrArg Prod.fst h
      exact Prod.ext h1 rfl
    · exact (congrArg Prod.snd h).symm
  | error e => exact absurd (congrArg Prod.fst h) (by simp [M.bind])

/-! ### Suffix reasoning for `allowInPlan` -/

theorem suffix_append_iff_of_le {α : Type} (s t u : List α) (h : u.length ≤ t.length) :
    u <:+ s ++ t ↔ u <:+ t := by
  induction s with
  | nil => simp
  | cons a s ih =>
    rw [List.cons_append, List.suffix_cons_iff]
    constructor
    · rintro (rfl | hs)
      · simp only [List.length_cons, List.length_append] at h
        omega
      · exact ih.mp hs
    · intro hu
      exact Or.inr (ih.mpr hu)

theorem jsEndsWith_append (s t u : String) (h : u.data.length ≤ t.data.length) :
    jsEndsWith (s ++ t) u = jsEndsWith t u := by
  unfold jsEndsWith
  rw [String.data_append]
  by_cases hs : u.data <:+ t.data
  · have h1 : u.data <:+ s.data ++ t.data := (suffix_append_iff_of_le _ _ _ h).mpr hs
    rw [(List.isSuffixOf_iff_suffix).mpr h1, (List.isSuffixOf_iff_suffix).mpr hs]
  · have h1 : ¬ u.data <:+ s.data ++ t.data := fun hx =>
      hs ((suffix_append_iff_of_le _ _ _ h).mp hx)
    rw [Bool.eq_iff_iff]
    simp only [List.isSuffixOf_iff_suffix]
    simp [hs, h1]

theorem allowInPlan_post_append (s t : String) (h6 : jsEndsWith t "/token" = false)
    (h7 : jsEndsWith t "/token/" = false) (hlen : 7 ≤ t.data.length) :
    allowInPlan "POST" (s ++ t) = false := by
  unfold allowInPlan
  rw [jsEndsWith_append s t "/token" (by exact le_trans (by decide) hlen),
      jsEndsWith_append s t "/token/" (by exact le_trans (by decide) hlen)]
  simp [h6, h7]

theorem not_endsWith_of_no_slash (t : String) (hfree : '/' ∉ t.data) (u : String)
    (hu : '/' ∈ u.data) : jsEndsWith t u = false := by
  unfold jsEndsWith
  rw [Bool.eq_false_iff]
  intro hx
  exact hfree (((List.isSuffixOf_iff_suffix).mp hx).subset hu)

theorem allowInPlan_post_slashFree (s t : String) (hfree : '/' ∉ t.data)
    (hlen : 7 ≤ t.data.length) : allowInPlan "POST" (s ++ t) = false :=
  allowInPlan_post_append s t (not_endsWith_of_no_slash t hfree _ (by decide))
    (not_endsWith_of_no_slash t hfree _ (by decide)) hlen

/-! ### `encodeURIComponent` produces no slash -/

theorem getD_mem_cons {α : Type} : ∀ (l : List α) (n : Nat) (d : α), l.getD n d ∈ d :: l
  | [], n, d => by simp [List.getD]
  | a :: l, 0, d => by simp [List.getD]
  | a :: l, n + 1, d => by
    have h := getD_mem_cons l n d
    simp only [List.getD, List.get?] at h ⊢
    rcases List.mem_cons.mp h with h | h
    · exact List.mem_cons.mpr (Or.inl h)
    · exact List.mem_cons.mpr (Or.inr (List.mem_cons.mpr (Or.inr h)))

theorem hexChar_ne_slash (n : Nat) : hexChar n ≠ '/' := by
  have h := getD_mem_cons hexChars n '0'
  have hall : ∀ c ∈ '0' :: hexChars, c ≠ '/' := by decide
  exact hall _ h

theorem percent_no_slash (b : Nat) : '/' ∉ percentEncodeByte b := by
  intro h
  simp only [percentEncodeByte, List.mem_cons] at h
  rcases h with h | h | h | h
  · exact absurd h.symm (by decide)
  · exact hexChar_ne_slash _ h.symm
  · exact hexChar_ne_slash _ h.symm
  · cases h

theorem utf8_fold_no_slash (bs : List Nat) :
    '/' ∉ bs.foldr (fun b a => percentEncodeByte b ++ a) [] := by
  induction bs with
  | nil => simp
  | cons b bs ih =>
    intro h
    rcases List.mem_append.mp h with h | h
    · exact percent_no_slash b h
    · exact ih h

theorem encodeURIComponent_no_slash (s : String) : '/' ∉ (encodeURIComponent s).data := by
  show '/' ∉ (String.mk (s.data.foldr _ [])).data
  induction s.data with
  | nil => simp [encodeURIComponent]
  | cons c cs ih =>
    intro h
    simp only [List.foldr_cons] at h
    rcases List.mem_append.mp h with h | h
    · by_cases hc : uriUnreserved c
      · rw [if_pos hc] at h
        simp only [List.mem_singleton] at h
        rw [← h] at hc
        exact absurd hc (by decide)
      · rw [if_neg hc] at h
        exact utf8_fold_no_slash _ h
    · exact ih h

/-! ### PLAN-mode calls are exactly the allowed ones (GETs and `/token`) -/

def PlanCalls (t : Trace) : Prop := ∀ c ∈ t, allowInPlan c.method c.url = true

theorem PlanCalls.nil : PlanCalls [] := by intro c hc; cases hc

theorem PlanCalls.append {t₁ t₂ : Trace} (h₁ : PlanCalls t₁) (h₂ : PlanCalls t₂) :
    PlanCalls (t₁ ++ t₂) := by
  intro c hc
  rcases List.mem_append.mp hc with h | h
  · exact h₁ c h
  · exact h₂ c h

theorem PlanCalls.bind {α β : Type} {x : M α} {f : α → M β} (hx : PlanCalls x.2)
    (hf : ∀ a, PlanCalls (f a).2) : PlanCalls (M.bind x f).2 := by
  unfold M.bind
  cases hx1 : x.1 with
  | ok a => exact PlanCalls.append hx (hf a)
  | error e => exact hx

theorem PlanCalls.tryCatch {α : Type} {x : M α} {fb : α} (hx : PlanCalls x.2) :
    PlanCalls (M.tryCatch x fb).2 := by
  unfold M.tryCatch
  cases x.1 <;> exact hx

theorem PlanCalls.mok {α : Type} (a : α) : PlanCalls (M.ok a).2 := PlanCalls.nil

theorem PlanCalls.merr {α : Type} (e : RunErr) : PlanCalls (M.err (α := α) e).2 := PlanCalls.nil

theorem PlanCalls.gcallSingle (url : String) : PlanCalls [gcall url] := by
  intro c hc
  simp only [List.mem_singleton] at hc
  subst hc
  rfl

theorem http_planCalls (w : World) (m u : String) (b : ReqBody) (ok : List Nat) :
    PlanCalls (http ⟨true, w⟩ m u b ok).2 := by
  unfold http
  by_cases hall : allowInPlan m u
  · rw [if_neg (by simp [hall])]
    cases w.fetch m u with
    | netError =>
      intro c hc
      simp only [List.mem_singleton] at hc
      subst hc
      exact hall
    | resp s body =>
      by_cases hs : ok.contains s <;>
        · simp only [hs, if_pos, if_neg, Bool.false_eq_true, ite_true, ite_false]
          intro c hc
          simp only [List.mem_singleton] at hc
          subst hc
          exact hall
  · rw [if_pos (by simp [hall])]
    exact PlanCalls.nil

theorem existsCheck_planCalls (p : Bool) (w : World) (u : String) (tk : Option String) :
    PlanCalls (existsCheck ⟨p, w⟩ u tk).2 := by
  unfold existsCheck
  cases w.fetch "GET" u <;> exact PlanCalls.gcallSingle u

theorem existsGet_plan (w : World) (u : String) (tk : Option String) :
    existsGet ⟨true, w⟩ u tk = (Except.ok false, []) := rfl

theorem listHumanTemplates_planCalls (p : Bool) (w : World) (api : String) (tk : Option String) :
    PlanCalls (listHumanTemplates ⟨p, w⟩ api tk).2 := by
  unfold listHumanTemplates
  cases w.fetch "GET" (api ++ "/human/template") <;> exact PlanCalls.gcallSingle _

/-! ### Pure "answer" functions: what the world says, stripped of effects -/

/-- The boolean a GET-based existence check computes from the world:
`false` on a network error, else `res.ok`. -/
def existsAnswer (w : World) (url : String) : Bool :=
  match w.fetch "GET" url with
  | FetchResult.netError => false
  | FetchResult.resp s _ => resOk s

/-- What the `GET /token/userInfo` step leaves in `userInfo`
(`{}` unless the call succeeded with status 200). -/
def userInfoAnswer (w : World) (api : String) : RespBody :=
  match w.fetch "GET" (api ++ "/token/userInfo") with
  | FetchResult.netError => RespBody.empty
  | FetchResult.resp s b => if s = 200 then b else RespBody.empty

/-- What `listHumanTemplates` answers under a world without GET rejections. -/
def templatesAnswer (w : World) (api : String) : List (Option String) :=
  match w.fetch "GET" (formListUrl api) with
  | FetchResult.netError => []
  | FetchResult.resp s b =>
    if resOk s then
      match b with
      | RespBody.templates ts => ts
      | _ => []
    else []

/-- The cached existing-template name set of the forms pass. -/
def existingNamesSpec (w : World) (api : String) : List String :=
  ((templatesAnswer w api).filterMap id).filter (fun n => !(n == ""))

/-- Worlds whose GETs never reject at network level (responses may still
have any status — these are the "fixed existence answers"). -/
def NoGetErr (w : World) : Prop := ∀ u, w.fetch "GET" u ≠ FetchResult.netError

/-- Worlds that accept every creation/exchange POST with status 200. -/
def PostsOk (w : World) : Prop := ∀ u, w.fetch "POST" u = FetchResult.resp 200 RespBody.empty

/-! ### Characterizations of the HTTP primitives -/

theorem existsCheck_eq (p : Bool) (w : World) (url : String) (tk : Option String) :
    existsCheck ⟨p, w⟩ url tk = (Except.ok (existsAnswer w url), [gcall url]) := by
  unfold existsCheck existsAnswer
  cases w.fetch "GET" url <;> rfl

theorem existsGet_apply (w : World) (url : String) (tk : Option String)
    (hg : NoGetErr w) :
    existsGet ⟨false, w⟩ url tk = (Except.ok (existsAnswer w url), [gcall url]) := by
  unfold existsGet existsAnswer
  cases hfm : w.fetch "GET" url with
  | netError => exact absurd hfm (hg url)
  | resp s b => simp

theorem listHumanTemplates_eq (p : Bool) (w : World) (api : String) (tk : Option String)
    (hg : NoGetErr w) :
    listHumanTemplates ⟨p, w⟩ api tk =
      (Except.ok (templatesAnswer w api), [gcall (formListUrl api)]) := by
  unfold listHumanTemplates templatesAnswer formListUrl
  cases hfm : w.fetch "GET" (api ++ "/human/template") with
  | netError => exact absurd hfm (hg _)
  | resp s b => simp

theorem http_post_ok (w : World) (u : String) (b : ReqBody) (oks : List Nat) (p : Bool)
    (hp : PostsOk w) (hsup : p = true → allowInPlan "POST" u = false)
    (h200 : oks.contains 200 = true) :
    http ⟨p, w⟩ "POST" u b oks =
      if p then (Except.ok RespBody.empty, [])
      else (Except.ok RespBody.empty, [⟨"POST", u, b⟩]) := by
  unfold http
  cases p with
  | true => rw [if_pos (by simp [hsup rfl]), if_pos rfl]
  | false =>
    have hmem : 200 ∈ oks := by simpa [List.contains] using h200
    rw [if_neg (by simp)]
    rw [hp u]
    simp [hmem]

theorem userInfo_eq (p : Bool) (w : World) (api : String) :
    M.tryCatch (http ⟨p, w⟩ "GET" (api ++ "/token/userInfo") ReqBody.empty [200]) RespBody.empty
      = (Except.ok (userInfoAnswer w api), [gcall (api ++ "/token/userInfo")]) := by
  unfold M.tryCatch http userInfoAnswer
  rw [if_neg (by simp [allowInPlan])]
  cases hfm : w.fetch "GET" (api ++ "/token/userInfo") with
  | netError => rfl
  | resp s b =>
    by_cases hs : s = 200
    · subst hs
      simp [List.contains, gcall]
    · have hc : List.contains [200] s = false := by
        simp [List.contains]
        omega
      simp [hc, hs, gcall]

theorem http_version_ok (p : Bool) (w : World) (api : String) (b : RespBody)
    (hv : w.fetch "GET" (api ++ "/version") = FetchResult.resp 200 b) :
    http ⟨p, w⟩ "GET" (api ++ "/version") ReqBody.empty [200] =
      (Except.ok b, [gcall (api ++ "/version")]) := by
  unfold http
  rw [if_neg (by simp [allowInPlan]), hv]
  simp [List.contains, gcall]

/-! ### Characterization: auth section under access-token auth -/

theorem authSection_token (env : Env) (ev : EnvVars) (api : String)
    (ha : truthy ev.conductorAccessToken = true) :
    authSection env ev api = (Except.ok ev.conductorAccessToken, []) := by
  unfold authSection
  rw [if_pos ha]
  rfl

/-! ### Characterization: models loop and integration pass -/

def modelsSpecAcc (w : World) (api integName : String) (plan : Bool) : List String → ModelsAcc
  | [] => ⟨[], [], 0, 0⟩
  | m :: rest =>
    let r := modelsSpecAcc w api integName plan rest
    if plan then ⟨r.existing, m :: r.missing, r.added, r.presentCount⟩
    else if existsAnswer w (modelUrl api integName m) then
      ⟨m :: r.existing, r.missing, r.added, r.presentCount + 1⟩
    else ⟨r.existing, m :: r.missing, r.added + 1, r.presentCount⟩

def modelsSpecTrace (w : World) (api integName : String) (plan : Bool) : List String → Trace
  | [] => []
  | m :: rest =>
    (if plan then []
     else
       gcall (modelUrl api integName m) ::
         (if existsAnswer w (modelUrl api integName m) then []
          else [⟨"POST", modelUrl api integName m, ReqBody.modelPayload⟩])) ++
      modelsSpecTrace w api integName plan rest

theorem modelsLoop_spec (w : World) (api integName : String) (tk : Option String) (plan : Bool)
    (hg : NoGetErr w) (hp : PostsOk w) :
    ∀ ms, modelsLoop ⟨plan, w⟩ api integName tk ms =
      (Except.ok (modelsSpecAcc w api integName plan ms),
       modelsSpecTrace w api integName plan ms)
  | [] => rfl
  | m :: rest => by
    have ih := modelsLoop_spec w api integName tk plan hg hp rest
    cases plan with
    | true =>
      simp only [modelsLoop, existsGet_plan, M.bind_ok_left, Bool.false_eq_true, if_false,
        modelsSpecAcc, modelsSpecTrace, if_true]
      simp [ih, M.bind, M.ok]
    | false =>
      rw [modelsLoop, existsGet_apply w _ tk hg, M.bind_ok_left]
      cases hex : existsAnswer w (modelUrl api integName m) with
      | true =>
        simp only [if_true, if_pos]
        rw [ih, M.bind_ok_left]
        simp [modelsSpecAcc, modelsSpecTrace, hex, M.ok]
      | false =>
        simp only [Bool.false_eq_true, if_false]
        rw [http_post_ok w _ _ _ false hp (fun h => absurd h (by decide)) (by decide),
          if_neg (by decide), M.bind_ok_left, ih, M.bind_ok_left]
        simp [modelsSpecAcc, modelsSpecTrace, hex, M.ok]

theorem modelsSpecTrace_plan (w : World) (api integName : String) :
    ∀ ms, modelsSpecTrace w api integName true ms = []
  | [] => rfl
  | m :: rest => by
    simp [modelsSpecTrace, modelsSpecTrace_plan w api integName rest]

def integSpecReport (plan noOpenai : Bool) (ev : EnvVars) (w : World) (api : String) :
    IntegReport :=
  if noOpenai then emptyIntegReport
  else
    let integName := ev.openaiIntegrationName.getD "openai"
    let models := parseModels ev.openaiModels
    let acc := modelsSpecAcc w api integName plan models
    if plan then ⟨false, false, false, acc.existing, acc.missing, acc.added, acc.presentCount⟩
    else
      let ie := existsAnswer w (integUrlOf api integName)
      ⟨false, ie, !ie, acc.existing, acc.missing, acc.added, acc.presentCount⟩

def integSpecTrace (plan noOpenai : Bool) (ev : EnvVars) (w : World) (api : String) : Trace :=
  if noOpenai then []
  else
    let integName := ev.openaiIntegrationName.getD "openai"
    let models := parseModels ev.openaiModels
    if plan then []
    else
      gcall (integUrlOf api integName) ::
        ((if existsAnswer w (integUrlOf api integName) then []
          else [⟨"POST", integUrlOf api integName, ReqBody.integrationPayload⟩]) ++
          modelsSpecTrace w api integName false models)

theorem integrationPass_spec (p no : Bool) (ev : EnvVars) (w : World) (api : String)
    (tk : Option String) (hg : NoGetErr w) (hp : PostsOk w)
    (hk : no = true ∨ mustEnvOk ev.openaiApiKey = true) :
    integrationPass ⟨p, w⟩ no ev api tk =
      (Except.ok (integSpecReport p no ev w api), integSpecTrace p no ev w api) := by
  cases no with
  | true => simp [integrationPass, integSpecReport, integSpecTrace, M.ok]
  | false =>
    have hkey : mustEnvOk ev.openaiApiKey = true := by
      rcases hk with h | h
      · cases h
      · exact h
    have hEG : ∀ url, existsGet ⟨false, w⟩ url tk = (Except.ok (existsAnswer w url), [gcall url]) :=
      fun url => existsGet_apply w url tk hg
    have hPO : ∀ u b, http ⟨false, w⟩ "POST" u b [200, 201, 204] =
        (Except.ok RespBody.empty, [⟨"POST", u, b⟩]) := by
      intro u b
      rw [http_post_ok w u b [200, 201, 204] false hp (fun h => absurd h (by decide)) (by decide)]
      simp
    have hML := modelsLoop_spec w api (ev.openaiIntegrationName.getD "openai") tk p hg hp
    cases p with
    | true =>
      simp [integrationPass, integSpecReport, integSpecTrace, hkey, existsGet_plan,
        hML, M.bind_ok_left, M.bind_pure, M.ok, M.bind, modelsSpecTrace_plan]
    | false =>
      cases hie : existsAnswer w (integUrlOf api (ev.openaiIntegrationName.getD "openai")) with
      | true =>
        simp [integrationPass, integSpecReport, integSpecTrace, hkey, hEG, hie, hML,
          M.bind_ok_left, M.bind_pure, M.ok, M.bind]
      | false =>
        simp [integrationPass, integSpecReport, integSpecTrace, hkey, hEG, hie, hPO, hML,
          M.bind_ok_left, M.bind_pure, M.ok, M.bind]

/-! ### Characterization: task-definitions pass -/

def taskdefSpecPair (w : World) (api : String) (userId : Option String) (names : List String) :
    List String × List TaskDef :=
  (names.filter (fun n => existsAnswer w (tdUrl api n)),
   (names.filter (fun n => !existsAnswer w (tdUrl api n))).map (fun n => mkTaskDef n userId))

theorem taskdefCheckLoop_spec (p : Bool) (w : World) (api : String) (tk : Option String)
    (uid : Option String) :
    ∀ names, taskdefCheckLoop ⟨p, w⟩ api tk uid names =
      (Except.ok (taskdefSpecPair w api uid names),
       names.map (fun n => gcall (tdUrl api n)))
  | [] => rfl
  | name :: rest => by
    have ih := taskdefCheckLoop_spec p w api tk uid rest
    rw [taskdefCheckLoop, existsCheck_eq, M.bind_ok_left, ih, M.bind_ok_left]
    cases hex : existsAnswer w (tdUrl api name) with
    | true => simp [taskdefSpecPair, List.filter_cons, hex, M.ok]
    | false => simp [taskdefSpecPair, List.filter_cons, hex, M.ok]

def taskdefSpecReport (w : World) (api : String) (userId : Option String) : TaskDefReport :=
  ⟨(taskdefSpecPair w api userId WORKER_TASKS).1, (taskdefSpecPair w api userId WORKER_TASKS).2⟩

def taskdefSpecTrace (w : World) (api : String) (userId : Option String) (plan : Bool) : Trace :=
  (WORKER_TASKS.map (fun n => gcall (tdUrl api n))) ++
    (if (taskdefSpecPair w api userId WORKER_TASKS).2.isEmpty then []
     else if plan then []
     else [⟨"POST", tdCreateUrl api,
            ReqBody.taskdefList (taskdefSpecPair w api userId WORKER_TASKS).2⟩])

theorem allowInPlan_tdCreate (api : String) : allowInPlan "POST" (tdCreateUrl api) = false :=
  allowInPlan_post_append api "/metadata/taskdefs" (by decide) (by decide) (by decide)

theorem taskdefPass_spec (p : Bool) (w : World) (api : String) (tk : Option String)
    (uid : Option String) (hp : PostsOk w) :
    taskdefPass ⟨p, w⟩ api tk uid =
      (Except.ok (taskdefSpecReport w api uid), taskdefSpecTrace w api uid p) := by
  unfold taskdefPass taskdefSpecReport taskdefSpecTrace
  rw [taskdefCheckLoop_spec, M.bind_ok_left]
  cases hmiss : (taskdefSpecPair w api uid WORKER_TASKS).2.isEmpty with
  | true => simp [hmiss, M.ok]
  | false =>
    simp only [hmiss, Bool.false_eq_true, if_false]
    rw [http_post_ok w _ _ _ p hp (fun _ => allowInPlan_tdCreate api) (by decide)]
    cases p with
    | true => simp [M.bind, M.ok]
    | false => simp [M.bind, M.ok]

/-! ### Characterization: forms pass -/

def formsSpecAccF (formsDir : String) (fsys : FS) (existingNames : List String) :
    List String → FormsAcc
  | [] => ⟨0, [], [], 0, 0⟩
  | f :: rest =>
    let r := formsSpecAccF formsDir fsys existingNames rest
    let form := fsys.readDoc (pathJoin formsDir f)
    if !truthy form.name then ⟨r.skippedInvalid + 1, r.existing, r.missing, r.created, r.skipped⟩
    else
      let n := form.name.getD ""
      if existingNames.contains n then
        ⟨r.skippedInvalid, n :: r.existing, r.missing, r.created, r.skipped + 1⟩
      else ⟨r.skippedInvalid, r.existing, n :: r.missing, r.created + 1, r.skipped⟩

def formsSpecTraceF (formsDir : String) (fsys : FS) (existingNames : List String) (plan : Bool)
    (api : String) : List String → Trace
  | [] => []
  | f :: rest =>
    (let form := fsys.readDoc (pathJoin formsDir f)
     if !truthy form.name then []
     else if existingNames.contains (form.name.getD "") then []
     else if plan then [] else [⟨"POST", formCreateUrl api, ReqBody.formDoc form⟩]) ++
      formsSpecTraceF formsDir fsys existingNames plan api rest

theorem allowInPlan_formCreate (api : String) :
    allowInPlan "POST" (formCreateUrl api) = false :=
  allowInPlan_post_append api "/human/template?newVersion=false" (by decide) (by decide) (by decide)

theorem formsLoop_spec (formsDir : String) (fsys : FS) (w : World) (api : String)
    (tk : Option String) (existingNames : List String) (p : Bool) (hp : PostsOk w) :
    ∀ files, formsLoop ⟨p, w⟩ formsDir fsys api tk existingNames files =
      (Except.ok (formsSpecAccF formsDir fsys existingNames files),
       formsSpecTraceF formsDir fsys existingNames p api files)
  | [] => rfl
  | f :: rest => by
    have ih := formsLoop_spec formsDir fsys w api tk existingNames p hp rest
    have hPO : http ⟨p, w⟩ "POST" (formCreateUrl api) (ReqBody.formDoc (fsys.readDoc (pathJoin formsDir f))) [200, 204] =
        if p then (Except.ok RespBody.empty, [])
        else (Except.ok RespBody.empty,
          [⟨"POST", formCreateUrl api, ReqBody.formDoc (fsys.readDoc (pathJoin formsDir f))⟩]) :=
      http_post_ok w _ _ _ p hp (fun _ => allowInPlan_formCreate api) (by decide)
    cases htr : truthy (fsys.readDoc (pathJoin formsDir f)).name with
    | false =>
      simp [formsLoop, formsSpecAccF, formsSpecTraceF, htr, ih, M.bind_ok_left, M.bind_pure, M.ok]
    | true =>
      cases hex : existingNames.contains ((fsys.readDoc (pathJoin formsDir f)).name.getD "") with
      | true =>
        have hex2 : (fsys.readDoc (pathJoin formsDir f)).name.getD "" ∈ existingNames := by
          simpa [List.contains] using hex
        simp [formsLoop, formsSpecAccF, formsSpecTraceF, htr, hex, hex2, ih, M.bind_ok_left,
          M.bind_pure, M.ok]
      | false =>
        have hex2 : ¬ (fsys.readDoc (pathJoin formsDir f)).name.getD "" ∈ existingNames := by
          simpa [List.contains] using hex
        cases p with
        | true =>
          simp [formsLoop, formsSpecAccF, formsSpecTraceF, htr, hex, hex2, ih, hPO,
            M.bind_ok_left, M.bind_pure, M.ok, M.bind]
        | false =>
          simp [formsLoop, formsSpecAccF, formsSpecTraceF, htr, hex, hex2, ih, hPO,
            M.bind_ok_left, M.bind_pure, M.ok, M.bind]

def formsSpecReport (formsDir : String) (fsys : FS) (w : World) (api : String) : FormsReport :=
  if !fsys.formsDirExists then emptyFormsReport true false
  else
    let files := fsys.formsFiles.filter (fun f => jsEndsWith f ".json")
    if files.isEmpty then emptyFormsReport false true
    else
      let acc := formsSpecAccF formsDir fsys (existingNamesSpec w api) files
      ⟨false, false, acc.skippedInvalid, acc.existing, acc.missing, acc.created, acc.skipped⟩

def formsSpecTraceFull (formsDir : String) (fsys : FS) (w : World) (api : String)
    (plan : Bool) : Trace :=
  if !fsys.formsDirExists then []
  else
    let files := fsys.formsFiles.filter (fun f => jsEndsWith f ".json")
    if files.isEmpty then []
    else
      gcall (formListUrl api) ::
        formsSpecTraceF formsDir fsys (existingNamesSpec w api) plan api files

theorem formsPass_spec (formsDir : String) (fsys : FS) (w : World) (api : String)
    (tk : Option String) (p : Bool) (hg : NoGetErr w) (hp : PostsOk w) :
    formsPass ⟨p, w⟩ formsDir fsys api tk =
      (Except.ok (formsSpecReport formsDir fsys w api),
       formsSpecTraceFull formsDir fsys w api p) := by
  unfold formsPass formsSpecReport formsSpecTraceFull
  cases hdir : fsys.formsDirExists with
  | false => simp [M.ok]
  | true =>
    simp only [Bool.not_true, Bool.false_eq_true, if_false]
    cases hfe : (fsys.formsFiles.filter (fun f => jsEndsWith f ".json")).isEmpty with
    | true => simp [hfe, M.ok]
    | false =>
      simp only [hfe, Bool.false_eq_true, if_false]
      rw [listHumanTemplates_eq p w api tk hg, M.bind_ok_left]
      rw [formsLoop_spec formsDir fsys w api tk _ p hp, M.bind_ok_left]
      simp [M.ok, existingNamesSpec]

/-! ### Characterization: prompts pass -/

def promptsSpecAccF (promptsDir : String) (fsys : FS) (w : World) (api : String) :
    List PromptSpec → PromptsReport
  | [] => ⟨[], [], [], 0, 0⟩
  | ps :: rest =>
    let r := promptsSpecAccF promptsDir fsys w api rest
    if !fsys.fileExists (pathJoin promptsDir ps.file) then
      ⟨ps.name :: r.fileMissing, r.existing, r.missing, r.created, r.skipped⟩
    else if existsAnswer w (promptUrl api ps.name) then
      ⟨r.fileMissing, ps.name :: r.existing, r.missing, r.created, r.skipped + 1⟩
    else ⟨r.fileMissing, r.existing, ps.name :: r.missing, r.created + 1, r.skipped⟩

def promptsSpecTraceF (promptsDir : String) (fsys : FS) (w : World) (api : String)
    (encodedModels : String) (plan : Bool) : List PromptSpec → Trace
  | [] => []
  | ps :: rest =>
    (if !fsys.fileExists (pathJoin promptsDir ps.file) then []
     else
       gcall (promptUrl api ps.name) ::
         (if existsAnswer w (promptUrl api ps.name) then []
          else if plan then []
          else [⟨"POST", promptCreateUrl api ps.name ps.file encodedModels,
                 ReqBody.promptText (fsys.readTextF (pathJoin promptsDir ps.file))⟩])) ++
      promptsSpecTraceF promptsDir fsys w api encodedModels plan rest

theorem allowInPlan_promptCreate (api name file em : String) (hem : '/' ∉ em.data) :
    allowInPlan "POST" (promptCreateUrl api name file em) = false := by
  unfold promptCreateUrl
  rw [String.append_assoc]
  apply allowInPlan_post_slashFree
  · rw [String.data_append]
    intro hmem
    rcases List.mem_append.mp hmem with h | h
    · exact absurd h (by decide)
    · exact hem h
  · rw [String.data_append, List.length_append]
    have h8 : ("&models=" : String).data.length = 8 := by decide
    omega

theorem promptsLoop_spec (promptsDir : String) (fsys : FS) (w : World) (api : String)
    (tk : Option String) (em : String) (p : Bool) (hg : NoGetErr w) (hp : PostsOk w)
    (hem : '/' ∉ em.data) :
    ∀ specs, promptsLoop ⟨p, w⟩ promptsDir fsys api tk em specs =
      (Except.ok (promptsSpecAccF promptsDir fsys w api specs),
       promptsSpecTraceF promptsDir fsys w api em p specs)
  | [] => rfl
  | ps :: rest => by
    have ih := promptsLoop_spec promptsDir fsys w api tk em p hg hp hem rest
    have hPO : http ⟨p, w⟩ "POST" (promptCreateUrl api ps.name ps.file em)
        (ReqBody.promptText (fsys.readTextF (pathJoin promptsDir ps.file))) [200, 204] =
        if p then (Except.ok RespBody.empty, [])
        else (Except.ok RespBody.empty,
          [⟨"POST", promptCreateUrl api ps.name ps.file em,
            ReqBody.promptText (fsys.readTextF (pathJoin promptsDir ps.file))⟩]) :=
      http_post_ok w _ _ _ p hp (fun _ => allowInPlan_promptCreate api ps.name ps.file em hem)
        (by decide)
    cases hfe : fsys.fileExists (pathJoin promptsDir ps.file) with
    | false =>
      simp [promptsLoop, promptsSpecAccF, promptsSpecTraceF, hfe, ih, M.bind_ok_left,
        M.bind_pure, M.ok]
    | true =>
      cases hex : existsAnswer w (promptUrl api ps.name) with
      | true =>
        simp [promptsLoop, promptsSpecAccF, promptsSpecTraceF, hfe, hex, ih,
          existsCheck_eq, M.bind_ok_left, M.bind_pure, M.ok]
      | false =>
        cases p with
        | true =>
          simp [promptsLoop, promptsSpecAccF, promptsSpecTraceF, hfe, hex, ih, hPO,
            existsCheck_eq, M.bind_ok_left, M.bind_pure, M.ok, M.bind]
        | false =>
          simp [promptsLoop, promptsSpecAccF, promptsSpecTraceF, hfe, hex, ih, hPO,
            existsCheck_eq, M.bind_ok_left, M.bind_pure, M.ok, M.bind]

def promptsSpecReport (promptsDir : String) (fsys : FS) (w : World) (api : String) :
    PromptsReport :=
  promptsSpecAccF promptsDir fsys w api REQUIRED_PROMPTS

def promptsSpecTraceFull (promptsDir : String) (pma : Option String) (fsys : FS) (w : World)
    (api : String) (plan : Bool) : Trace :=
  promptsSpecTraceF promptsDir fsys w api
    (encodeURIComponent (pma.getD "openai:gpt-4o-mini")) plan REQUIRED_PROMPTS

theorem promptsPass_spec (promptsDir : String) (pma : Option String) (fsys : FS) (w : World)
    (api : String) (tk : Option String) (p : Bool) (hg : NoGetErr w) (hp : PostsOk w) :
    promptsPass ⟨p, w⟩ promptsDir pma fsys api tk =
      (Except.ok (promptsSpecReport promptsDir fsys w api),
       promptsSpecTraceFull promptsDir pma fsys w api p) := by
  unfold promptsPass promptsSpecReport promptsSpecTraceFull
  exact promptsLoop_spec promptsDir fsys w api tk _ p hg hp
    (encodeURIComponent_no_slash _) REQUIRED_PROMPTS

/-! ### Characterization: workflows pass -/

def wfSpecAcc (fsys : FS) (w : World) (api : String) (resolveFull : String → String) :
    List String → WorkflowsReport
  | [] => ⟨0, [], [], 0, 0⟩
  | f :: rest =>
    let r := wfSpecAcc fsys w api resolveFull rest
    let wf := fsys.readDoc (resolveFull f)
    if !truthy wf.name then ⟨r.skippedInvalid + 1, r.existing, r.missing, r.created, r.skipped⟩
    else
      let n := wf.name.getD ""
      if existsAnswer w (wfUrl api n) then
        ⟨r.skippedInvalid, n :: r.existing, r.missing, r.created, r.skipped + 1⟩
      else ⟨r.skippedInvalid, r.existing, n :: r.missing, r.created + 1, r.skipped⟩

def wfSpecTraceF (fsys : FS) (w : World) (api : String) (resolveFull : String → String)
    (plan : Bool) : List String → Trace
  | [] => []
  | f :: rest =>
    (let wf := fsys.readDoc (resolveFull f)
     if !truthy wf.name then []
     else
       gcall (wfUrl api (wf.name.getD "")) ::
         (if existsAnswer w (wfUrl api (wf.name.getD "")) then []
          else if plan then []
          else [⟨"POST", wfCreateUrl api, ReqBody.workflowDoc wf⟩])) ++
      wfSpecTraceF fsys w api resolveFull plan rest

theorem allowInPlan_wfCreate (api : String) :
    allowInPlan "POST" (wfCreateUrl api) = false :=
  allowInPlan_post_append api "/metadata/workflow?overwrite=false&newVersion=false"
    (by decide) (by decide) (by decide)

theorem workflowsLoop_spec (fsys : FS) (w : World) (api : String) (tk : Option String)
    (resolveFull : String → String) (p : Bool) (hp : PostsOk w) :
    ∀ files, workflowsLoop ⟨p, w⟩ fsys api tk resolveFull files =
      (Except.ok (wfSpecAcc fsys w api resolveFull files),
       wfSpecTraceF fsys w api resolveFull p files)
  | [] => rfl
  | f :: rest => by
    have ih := workflowsLoop_spec fsys w api tk resolveFull p hp rest
    have hPO : http ⟨p, w⟩ "POST" (wfCreateUrl api)
        (ReqBody.workflowDoc (fsys.readDoc (resolveFull f))) [200, 204] =
        if p then (Except.ok RespBody.empty, [])
        else (Except.ok RespBody.empty,
          [⟨"POST", wfCreateUrl api, ReqBody.workflowDoc (fsys.readDoc (resolveFull f))⟩]) :=
      http_post_ok w _ _ _ p hp (fun _ => allowInPlan_wfCreate api) (by decide)
    cases htr : truthy (fsys.readDoc (resolveFull f)).name with
    | false =>
      simp [workflowsLoop, wfSpecAcc, wfSpecTraceF, htr, ih, M.bind_ok_left, M.bind_pure, M.ok]
    | true =>
      cases hex : existsAnswer w (wfUrl api ((fsys.readDoc (resolveFull f)).name.getD "")) with
      | true =>
        simp [workflowsLoop, wfSpecAcc, wfSpecTraceF, htr, hex, ih, existsCheck_eq,
          M.bind_ok_left, M.bind_pure, M.ok]
      | false =>
        cases p with
        | true =>
          simp [workflowsLoop, wfSpecAcc, wfSpecTraceF, htr, hex, ih, hPO, existsCheck_eq,
            M.bind_ok_left, M.bind_pure, M.ok, M.bind]
        | false =>
          simp [workflowsLoop, wfSpecAcc, wfSpecTraceF, htr, hex, ih, hPO, existsCheck_eq,
            M.bind_ok_left, M.bind_pure, M.ok, M.bind]

def wfSpecReport (workflowsDir : String) (positionalJson : Option String) (fsys : FS)
    (w : World) (api : String) : WorkflowsReport :=
  match positionalJson with
  | some pj => wfSpecAcc fsys w api fsys.resolve [pj]
  | none =>
      wfSpecAcc fsys w api (pathJoin workflowsDir)
        (fsys.workflowFiles.filter (fun f => jsEndsWith f ".json"))

def wfSpecTraceFull (workflowsDir : String) (positionalJson : Option String) (fsys : FS)
    (w : World) (api : String) (plan : Bool) : Trace :=
  match positionalJson with
  | some pj => wfSpecTraceF fsys w api fsys.resolve plan [pj]
  | none =>
      wfSpecTraceF fsys w api (pathJoin workflowsDir) plan
        (fsys.workflowFiles.filter (fun f => jsEndsWith f ".json"))

theorem workflowsPass_spec (workflowsDir : String) (positionalJson : Option String) (fsys : FS)
    (w : World) (api : String) (tk : Option String) (p : Bool) (hp : PostsOk w)
    (hdir : fsys.workflowsDirExists = true) :
    workflowsPass ⟨p, w⟩ workflowsDir positionalJson fsys api tk =
      (Except.ok (wfSpecReport workflowsDir positionalJson fsys w api),
       wfSpecTraceFull workflowsDir positionalJson fsys w api p) := by
  unfold workflowsPass wfSpecReport wfSpecTraceFull
  rw [hdir]
  simp only [Bool.not_true, Bool.false_eq_true, if_false]
  cases positionalJson with
  | some pj => exact workflowsLoop_spec fsys w api tk fsys.resolve p hp [pj]
  | none => exact workflowsLoop_spec fsys w api tk (pathJoin workflowsDir) p hp _

/-! ### Characterization: the whole run -/

def specUserId (w : World) (api : String) : Option String := respUserId (userInfoAnswer w api)

/-- The report a successful run produces, computed purely from the
configuration, the file system and the world's answers. -/
def specReport (cfg : Config) (fsys : FS) (w : World) : Report :=
  let api := normalizeBaseApiUrl cfg.envVars
  ⟨specUserId w api,
   integSpecReport cfg.plan cfg.noOpenai cfg.envVars w api,
   taskdefSpecReport w api (specUserId w api),
   formsSpecReport cfg.formsDir fsys w api,
   promptsSpecReport cfg.promptsDir fsys w api,
   wfSpecReport cfg.workflowsDir cfg.positionalJson fsys w api⟩

/-- The trace a successful run issues. -/
def specTrace (cfg : Config) (fsys : FS) (w : World) : Trace :=
  let api := normalizeBaseApiUrl cfg.envVars
  gcall (api ++ "/version") :: gcall (api ++ "/token/userInfo") ::
    (integSpecTrace cfg.plan cfg.noOpenai cfg.envVars w api ++
      (taskdefSpecTrace w api (specUserId w api) cfg.plan ++
        (formsSpecTraceFull cfg.formsDir fsys w api cfg.plan ++
          (promptsSpecTraceFull cfg.promptsDir cfg.envVars.promptModelAssociation fsys w api
              cfg.plan ++
            wfSpecTraceFull cfg.workflowsDir cfg.positionalJson fsys w api cfg.plan))))

/-- Benign-run hypotheses: access-token auth, no GET-level network
rejections, creation POSTs succeed, the server is reachable, the OpenAI
key is present (or the step skipped), the workflows dir exists. -/
def GoodRun (cfg : Config) (fsys : FS) (w : World) : Prop :=
  truthy cfg.envVars.conductorAccessToken = true ∧
  NoGetErr w ∧ PostsOk w ∧
  (∃ b, w.fetch "GET" (normalizeBaseApiUrl cfg.envVars ++ "/version") = FetchResult.resp 200 b) ∧
  (cfg.noOpenai = true ∨ mustEnvOk cfg.envVars.openaiApiKey = true) ∧
  fsys.workflowsDirExists = true

theorem mainRun_spec (cfg : Config) (fsys : FS) (w : World) (h : GoodRun cfg fsys w) :
    mainRun cfg fsys w = (Except.ok (specReport cfg fsys w), specTrace cfg fsys w) := by
  obtain ⟨ha, hg, hp, ⟨vb, hv⟩, hk, hdir⟩ := h
  have hAuth := authSection_token ⟨cfg.plan, w⟩ cfg.envVars (normalizeBaseApiUrl cfg.envVars) ha
  have hVer := http_version_ok cfg.plan w (normalizeBaseApiUrl cfg.envVars) vb hv
  have hUI := userInfo_eq cfg.plan w (normalizeBaseApiUrl cfg.envVars)
  have hInt := integrationPass_spec cfg.plan cfg.noOpenai cfg.envVars w
    (normalizeBaseApiUrl cfg.envVars) cfg.envVars.conductorAccessToken hg hp hk
  have hTd := taskdefPass_spec cfg.plan w (normalizeBaseApiUrl cfg.envVars)
    cfg.envVars.conductorAccessToken
    (respUserId (userInfoAnswer w (normalizeBaseApiUrl cfg.envVars))) hp
  have hFr := formsPass_spec cfg.formsDir fsys w (normalizeBaseApiUrl cfg.envVars)
    cfg.envVars.conductorAccessToken cfg.plan hg hp
  have hPr := promptsPass_spec cfg.promptsDir cfg.envVars.promptModelAssociation fsys w
    (normalizeBaseApiUrl cfg.envVars) cfg.envVars.conductorAccessToken cfg.plan hg hp
  have hWf := workflowsPass_spec cfg.workflowsDir cfg.positionalJson fsys w
    (normalizeBaseApiUrl cfg.envVars) cfg.envVars.conductorAccessToken cfg.plan hp hdir
  simp only [mainRun, hAuth, hVer, hUI, hInt, hTd, hFr, hPr, hWf,
    M.bind_ok_left, M.bind_pure]
  simp [M.ok, M.bind, specReport, specTrace, specUserId]

/-! ### A concrete benign environment (used by witnesses) -/

def envW : EnvVars :=
  ⟨none, some "h", some "t", none, none, none, none, none, none, none, some "k", none, none⟩

def cfgW : Config :=
  ⟨false, false, "./workflows", "./workflows/prompts", "./forms", none, envW⟩

def cfgWPlan : Config :=
  ⟨true, false, "./workflows", "./workflows/prompts", "./forms", none, envW⟩

def wwResp (m u : String) : Nat × RespBody :=
  if m == "POST" then (200, RespBody.empty)
  else if u == "h/api/version" then (200, RespBody.text "1")
  else if u == "h/api/token/userInfo" then (200, RespBody.userInfoResp (some "User") (some "u@x"))
  else if u == "h/api/human/template" then (200, RespBody.templates [some "FormA"])
  else if u == "h/api/metadata/taskdefs/healthcare_provider_finder" then (200, RespBody.empty)
  else (404, RespBody.empty)

/-- A world that always responds (never a network error): the first worker
taskdef and the form template `FormA` exist, everything else is absent,
and every POST succeeds with 200. -/
def wW : World := ⟨fun m u => FetchResult.resp (wwResp m u).1 (wwResp m u).2⟩

def fsW : FS :=
  { formsDirExists := true
    formsFiles := ["a.json", "b.json"]
    workflowsDirExists := true
    workflowFiles := ["w.json"]
    fileExists := fun _ => true
    readDoc := fun pth =>
      if pth == "./forms/a.json" then ⟨some "FormA", "fa"⟩
      else if pth == "./forms/b.json" then ⟨some "FormB", "fb"⟩
      else if pth == "./workflows/w.json" then ⟨some "WfA", "wf"⟩
      else ⟨none, ""⟩
    readTextF := fun _ => "prompt-text"
    resolve := fun pth => "R/" ++ pth }

theorem wW_noGetErr : NoGetErr wW := fun _ h => FetchResult.noConfusion h

theorem wW_postsOk : PostsOk wW := fun _ => rfl

theorem goodRunW : GoodRun cfgW fsW wW :=
  ⟨rfl, wW_noGetErr, wW_postsOk, ⟨RespBody.text "1", rfl⟩, Or.inr (by decide), rfl⟩

theorem goodRunWPlan : GoodRun cfgWPlan fsW wW :=
  ⟨rfl, wW_noGetErr, wW_postsOk, ⟨RespBody.text "1", rfl⟩, Or.inr (by decide), rfl⟩

/-! ### Facts about `jsStripApiSuffix` / `normalizeBaseApiUrl` -/

theorem suffix_getLast {α : Type} {u l : List α} (h : u <:+ l) (x : α)
    (hu : u.getLast? = some x) : l.getLast? = some x := by
  obtain ⟨pre, rfl⟩ := h
  rw [List.getLast?_append, hu]
  rfl

theorem not_endsWith_apiSlash (s : String) : jsEndsWith (s ++ "/api") "/api/" = false := by
  unfold jsEndsWith
  rw [Bool.eq_false_iff]
  intro hx
  have hsuf := List.isSuffixOf_iff_suffix.mp hx
  have h1 : ((s ++ "/api").data).getLast? = some '/' := suffix_getLast hsuf '/' (by decide)
  rw [String.data_append, List.getLast?_append] at h1
  have h2 : (("/api" : String).data).getLast? = some 'i' := by decide
  rw [h2] at h1
  simp only [Option.or] at h1
  exact absurd h1 (by decide)

theorem endsWith_append_self (s t : String) : jsEndsWith (s ++ t) t = true := by
  unfold jsEndsWith
  rw [String.data_append]
  exact List.isSuffixOf_iff_suffix.mpr (List.suffix_append s.data t.data)

/-- Stripping `/api(/)` undoes exactly one appended `/api`. -/
theorem jsStripApiSuffix_append (s : String) : jsStripApiSuffix (s ++ "/api") = s := by
  unfold jsStripApiSuffix
  rw [not_endsWith_apiSlash s, endsWith_append_self s "/api"]
  simp only [Bool.false_eq_true, if_false, if_true]
  rw [String.data_append, List.length_append]
  have h4 : ("/api" : String).data.length = 4 := by decide
  rw [h4]
  have hl : s.data.length + 4 - 4 = s.data.length := by omega
  rw [hl, List.take_left]

/-- An `EnvVars` providing just `CONDUCTOR_SERVER_URL = u`. -/
def envWithBase (u : String) : EnvVars :=
  ⟨none, some u, none, none, none, none, none, none, none, none, none, none, none⟩

theorem beq_empty_append_api (y : String) : ((y ++ "/api") == "") = false := by
  rw [Bool.eq_false_iff]
  intro hx
  have h := eq_of_beq hx
  have hlen := congrArg (fun x => x.data.length) h
  have h4 : ("/api" : String).data.length = 4 := by decide
  simp [String.data_append, List.length_append, h4] at hlen

theorem norm_of_api_append (y : String) :
    normalizeBaseApiUrl (envWithBase (y ++ "/api")) = y ++ "/api" := by
  dsimp only [normalizeBaseApiUrl, envWithBase, truthy, Option.getD]
  rw [beq_empty_append_api y]
  simp only [Bool.not_false, if_true, Bool.false_eq_true, if_false]
  rw [jsStripApiSuffix_append]

/-- C9 counterexample: the server URL `"https://h/api/"` does not end in
`"/api"`, yet normalizing it and normalizing it with `"/api"` appended give
different API bases (`"https://h/api"` vs `"https://h/api//api"`): the
end-anchored strip removes the whole `"/api/"` from the former but only the
final `"/api"` of the latter. -/
theorem c9_counterexample :
    jsEndsWith "https://h/api/" "/api" = false ∧
      normalizeBaseApiUrl (envWithBase "https://h/api/") ≠
        normalizeBaseApiUrl (envWithBase ("https://h/api/" ++ "/api")) := by
  constructor
  · decide
  · decide

/-- C9 (amended): for every nonempty server URL `u` ending in neither
`"/api"` nor `"/api/"`, the normalized API base from `u` equals the one
from `u ++ "/api"`; and normalization is idempotent on every `u`
(re-normalizing an already-normalized base leaves it unchanged). -/
theorem c9_normalize_amended :
    (∀ u : String, u ≠ "" → jsEndsWith u "/api" = false → jsEndsWith u "/api/" = false →
      normalizeBaseApiUrl (envWithBase u) = normalizeBaseApiUrl (envWithBase (u ++ "/api"))) ∧
    (∀ u : String,
      normalizeBaseApiUrl (envWithBase (normalizeBaseApiUrl (envWithBase u))) =
        normalizeBaseApiUrl (envWithBase u)) := by
  constructor
  · intro u hne h4 h5
    have hbeq : (u == "") = false := by
      rw [Bool.eq_false_iff]
      intro hx
      exact hne (eq_of_beq hx)
    rw [norm_of_api_append u]
    dsimp only [normalizeBaseApiUrl, envWithBase, truthy, Option.getD]
    rw [hbeq]
    simp only [Bool.not_false, if_true, Bool.false_eq_true, if_false]
    unfold jsStripApiSuffix
    rw [h4, h5]
    simp
  · intro u
    have hform : ∃ y, normalizeBaseApiUrl (envWithBase u) = y ++ "/api" := by
      dsimp only [normalizeBaseApiUrl, envWithBase, truthy, Option.getD]
      cases hbeq : (u == "") with
      | true =>
        refine ⟨"https://developer.orkescloud.com", ?_⟩
        simp only [hbeq, Bool.not_true, Bool.false_eq_true, if_false]
        decide
      | false =>
        refine ⟨jsStripApiSuffix u, ?_⟩
        simp only [hbeq, Bool.not_false, if_true, Bool.false_eq_true, if_false]
    obtain ⟨y, hy⟩ := hform
    rw [hy, norm_of_api_append]

theorem c9_normalize_witness :
    normalizeBaseApiUrl (envWithBase "https://h") =
      normalizeBaseApiUrl (envWithBase ("https://h" ++ "/api")) ∧
    normalizeBaseApiUrl (envWithBase (normalizeBaseApiUrl (envWithBase "https://h"))) =
      normalizeBaseApiUrl (envWithBase "https://h") :=
  ⟨c9_normalize_amended.1 "https://h" (by decide) (by decide) (by decide),
   c9_normalize_amended.2 "https://h"⟩

/-! ### C2: existence-check failure handling -/

def wNetErr : World := ⟨fun _ _ => FetchResult.netError⟩

def w404 : World := ⟨fun _ _ => FetchResult.resp 404 RespBody.empty⟩

/-- C2 counterexample: the existence check backing the integration and
model kinds (`existsGet`, script lines 216-220) has no try/catch: in apply
mode a thrown network error propagates to the caller as an error instead
of being treated as `exists = false`. -/
theorem c2_counterexample :
    existsGet ⟨false, wNetErr⟩ "h/api/integrations/provider/openai" (some "t") =
      (Except.error (RunErr.netError "h/api/integrations/provider/openai"),
       [gcall "h/api/integrations/provider/openai"]) := by decide

/-- C2 (amended): for the `exists()`-based checks — the ones backing the
taskdef, prompt and WORKFLOW kinds — every failure, thrown network error
or non-OK status, yields `exists = false` and never propagates.  For
`existsGet` — backing only the integration and model kinds — and for the
form-template listing, a non-OK status yields `exists = false`, but a
thrown network error propagates as an error in apply mode (while in plan
mode `existsGet` answers false without issuing the request at all). -/
theorem c2_exists_failure_amended :
    (∀ (p : Bool) (w : World) (url : String) (tk : Option String),
      (w.fetch "GET" url = FetchResult.netError →
        existsCheck ⟨p, w⟩ url tk = (Except.ok false, [gcall url])) ∧
      (∀ s b, w.fetch "GET" url = FetchResult.resp s b → resOk s = false →
        existsCheck ⟨p, w⟩ url tk = (Except.ok false, [gcall url]))) ∧
    (∀ (w : World) (url : String) (tk : Option String) (s : Nat) (b : RespBody),
      w.fetch "GET" url = FetchResult.resp s b → resOk s = false →
        existsGet ⟨false, w⟩ url tk = (Except.ok false, [gcall url])) ∧
    (∀ (p : Bool) (w : World) (api : String) (tk : Option String) (name : String)
      (s : Nat) (b : RespBody),
      w.fetch "GET" (api ++ "/human/template") = FetchResult.resp s b → resOk s = false →
        humanTemplateExists ⟨p, w⟩ api tk name =
          (Except.ok false, [gcall (api ++ "/human/template")])) ∧
    (∀ (w : World) (url : String) (tk : Option String),
      w.fetch "GET" url = FetchResult.netError →
        existsGet ⟨false, w⟩ url tk =
          (Except.error (RunErr.netError url), [gcall url])) ∧
    (∀ (w : World) (url : String) (tk : Option String),
      existsGet ⟨true, w⟩ url tk = (Except.ok false, [])) ∧
    (∀ (w : World) (api : String) (tk : Option String),
      w.fetch "GET" (api ++ "/human/template") = FetchResult.netError →
        listHumanTemplates ⟨false, w⟩ api tk =
          (Except.error (RunErr.netError (api ++ "/human/template")),
           [gcall (api ++ "/human/template")])) := by
  refine ⟨fun p w url tk => ⟨fun hf => ?_, fun s b hf hok => ?_⟩,
    fun w url tk s b hf hok => ?_, fun p w api tk name s b hf hok => ?_,
    fun w url tk hf => ?_, fun w url tk => rfl, fun w api tk hf => ?_⟩
  · unfold existsCheck
    rw [hf]
  · unfold existsCheck
    rw [hf]
    simp [hok]
  · unfold existsGet
    rw [hf]
    simp [hok]
  · unfold humanTemplateExists listHumanTemplates
    rw [hf]
    simp [hok, M.bind_ok_left, M.ok]
  · unfold existsGet
    rw [hf]
    simp
  · unfold listHumanTemplates
    rw [hf]

theorem c2_witness :
    existsCheck ⟨false, wNetErr⟩ "u" none = (Except.ok false, [gcall "u"]) ∧
    existsCheck ⟨false, w404⟩ "u" none = (Except.ok false, [gcall "u"]) ∧
    existsGet ⟨false, w404⟩ "u" none = (Except.ok false, [gcall "u"]) ∧
    humanTemplateExists ⟨false, w404⟩ "h/api" none "X" =
      (Except.ok false, [gcall ("h/api" ++ "/human/template")]) ∧
    existsGet ⟨false, wNetErr⟩ "u" none =
      (Except.error (RunErr.netError "u"), [gcall "u"]) ∧
    existsGet ⟨true, wNetErr⟩ "u" none = (Except.ok false, []) ∧
    listHumanTemplates ⟨false, wNetErr⟩ "h/api" none =
      (Except.error (RunErr.netError ("h/api" ++ "/human/template")),
       [gcall ("h/api" ++ "/human/template")]) :=
  ⟨(c2_exists_failure_amended.1 false wNetErr "u" none).1 rfl,
   (c2_exists_failure_amended.1 false w404 "u" none).2 404 RespBody.empty rfl (by decide),
   c2_exists_failure_amended.2.1 w404 "u" none 404 RespBody.empty rfl (by decide),
   c2_exists_failure_amended.2.2.1 false w404 "h/api" none "X" 404 RespBody.empty rfl (by decide),
   c2_exists_failure_amended.2.2.2.1 wNetErr "u" none rfl,
   c2_exists_failure_amended.2.2.2.2.1 wNetErr "u" none,
   c2_exists_failure_amended.2.2.2.2.2 wNetErr "h/api" none rfl⟩

/-! ### C6: absent source directories -/

def fsWNoForms : FS := { fsW with formsDirExists := false }

def fsWNoWfDir : FS := { fsW with workflowsDirExists := false }

theorem goodRunWNoForms : GoodRun cfgW fsWNoForms wW :=
  ⟨rfl, wW_noGetErr, wW_postsOk, ⟨RespBody.text "1", rfl⟩, Or.inr (by decide), rfl⟩

/-- C6 counterexample: with everything else benign but the workflows
source directory absent, the run does not skip that pass with an
informational outcome — `main` throws `Workflows dir not found` (script
line 542) and the process exits non-zero. -/
theorem c6_counterexample :
    (mainRun cfgW fsWNoWfDir wW).1 =
      Except.error (RunErr.workflowsDirMissing "./workflows") ∧
    runExit cfgW fsWNoWfDir wW = 1 := by
  constructor
  · decide
  · decide

/-- C6 (amended): an absent forms directory skips the forms pass with an
informational, non-fatal outcome and the run continues to completion
(exit 0 under benign conditions); an absent workflows directory, by
contrast, makes the workflows pass throw and the run exit non-zero. -/
theorem c6_dir_missing_amended :
    (∀ (p : Bool) (w : World) (formsDir : String) (fsys : FS) (api : String) (tk : Option String),
      fsys.formsDirExists = false →
        formsPass ⟨p, w⟩ formsDir fsys api tk = (Except.ok (emptyFormsReport true false), [])) ∧
    (∀ (cfg : Config) (fsys : FS) (w : World), GoodRun cfg fsys w →
      fsys.formsDirExists = false →
        ∃ r t, mainRun cfg fsys w = (Except.ok r, t) ∧ r.forms = emptyFormsReport true false ∧
          runExit cfg fsys w = 0) ∧
    (∀ (p : Bool) (w : World) (workflowsDir : String) (pjson : Option String) (fsys : FS)
      (api : String) (tk : Option String),
      fsys.workflowsDirExists = false →
        workflowsPass ⟨p, w⟩ workflowsDir pjson fsys api tk =
          (Except.error (RunErr.workflowsDirMissing workflowsDir), [])) ∧
    (∀ (cfg : Config) (fsys : FS) (w : World) (e : RunErr),
      (mainRun cfg fsys w).1 = Except.error e → runExit cfg fsys w = 1) := by
  refine ⟨fun p w formsDir fsys api tk hdir => ?_, fun cfg fsys w hgood hdir => ?_,
    fun p w workflowsDir pjson fsys api tk hdir => ?_, fun cfg fsys w e herr => ?_⟩
  · unfold formsPass
    rw [hdir]
    rfl
  · refine ⟨specReport cfg fsys w, specTrace cfg fsys w, mainRun_spec cfg fsys w hgood, ?_, ?_⟩
    · show formsSpecReport cfg.formsDir fsys w _ = _
      unfold formsSpecReport
      rw [hdir]
      rfl
    · unfold runExit
      rw [mainRun_spec cfg fsys w hgood]
  · unfold workflowsPass
    rw [hdir]
    rfl
  · unfold runExit
    rw [herr]

theorem c6_witness :
    formsPass ⟨false, wW⟩ "./forms" fsWNoForms "h/api" (some "t") =
      (Except.ok (emptyFormsReport true false), []) ∧
    (∃ r t, mainRun cfgW fsWNoForms wW = (Except.ok r, t) ∧
      r.forms = emptyFormsReport true false ∧ runExit cfgW fsWNoForms wW = 0) ∧
    workflowsPass ⟨false, wW⟩ "./workflows" none fsWNoWfDir "h/api" (some "t") =
      (Except.error (RunErr.workflowsDirMissing "./workflows"), []) ∧
    runExit cfgW fsWNoWfDir wW = 1 :=
  ⟨c6_dir_missing_amended.1 false wW "./forms" fsWNoForms "h/api" (some "t") rfl,
   c6_dir_missing_amended.2.1 cfgW fsWNoForms wW goodRunWNoForms rfl,
   c6_dir_missing_amended.2.2.1 false wW "./workflows" none fsWNoWfDir "h/api" (some "t") rfl,
   c6_dir_missing_amended.2.2.2 cfgW fsWNoWfDir wW (RunErr.workflowsDirMissing "./workflows")
     (by decide)⟩

/-! ### C8: task-definition defaults -/

theorem taskdefPass_ok_shape (p : Bool) (w : World) (api : String) (tk uid : Option String)
    (r : TaskDefReport) (t : Trace)
    (h : taskdefPass ⟨p, w⟩ api tk uid = (Except.ok r, t)) :
    r = taskdefSpecReport w api uid := by
  unfold taskdefPass at h
  rw [taskdefCheckLoop_spec, M.bind_ok_left] at h
  by_cases hm : (taskdefSpecPair w api uid WORKER_TASKS).2.isEmpty
  · rw [if_pos hm] at h
    have h1 := congrArg Prod.fst h
    simp only [M.ok] at h1
    cases h1
    rfl
  · rw [if_neg hm] at h
    unfold M.bind at h
    cases hh : (http ⟨p, w⟩ "POST" (tdCreateUrl api)
        (ReqBody.taskdefList (taskdefSpecPair w api uid WORKER_TASKS).2) [200, 204]).1 with
    | ok v =>
      rw [hh] at h
      have h1 := congrArg Prod.fst h
      simp only [M.ok] at h1
      cases h1
      rfl
    | error e =>
      rw [hh] at h
      have h1 := congrArg Prod.fst h
      simp only [] at h1
      cases h1

/-- C8: every task-definition record built for a missing worker task in
any run that completes carries `retryCount = 2`, `timeoutSeconds = 300`,
`responseTimeoutSeconds = 300`, and `ownerEmail` equal to the authenticated
user's id (the run's `userId`), or `"unknown"` when unavailable. -/
theorem c8_taskdef_defaults (cfg : Config) (fsys : FS) (w : World) (r : Report) (t : Trace)
    (h : mainRun cfg fsys w = (Except.ok r, t)) :
    ∀ d ∈ r.taskdefs.missingTaskDefs,
      d.retryCount = 2 ∧ d.timeoutSeconds = 300 ∧ d.responseTimeoutSeconds = 300 ∧
        d.ownerEmail = r.userId.getD "unknown" := by
  simp only [mainRun] at h
  obtain ⟨token, t1, t2, h1, h2, rfl⟩ := M.bind_eq_ok h
  obtain ⟨vr, t3, t4, h3, h4, rfl⟩ := M.bind_eq_ok h2
  obtain ⟨ui, t5, t6, h5, h6, rfl⟩ := M.bind_eq_ok h4
  obtain ⟨integ, t7, t8, h7, h8, rfl⟩ := M.bind_eq_ok h6
  obtain ⟨tds, t9, t10, h9, h10, rfl⟩ := M.bind_eq_ok h8
  obtain ⟨frm, t11, t12, h11, h12, rfl⟩ := M.bind_eq_ok h10
  obtain ⟨prm, t13, t14, h13, h14, rfl⟩ := M.bind_eq_ok h12
  obtain ⟨wfs, t15, t16, h15, h16, rfl⟩ := M.bind_eq_ok h14
  have hr : r = ⟨respUserId ui, integ, tds, frm, prm, wfs⟩ := by
    have h17 := congrArg Prod.fst h16
    simp only [M.ok, Except.ok.injEq] at h17
    exact h17.symm
  have hshape := taskdefPass_ok_shape cfg.plan w (normalizeBaseApiUrl cfg.envVars) token
    (respUserId ui) tds t9 h9
  subst hr
  subst hshape
  intro d hd
  simp only [taskdefSpecReport, taskdefSpecPair] at hd
  obtain ⟨n, hn, rfl⟩ := List.mem_map.mp hd
  exact ⟨rfl, rfl, rfl, rfl⟩

theorem c8_witness :
    mainRun cfgW fsW wW = (Except.ok (specReport cfgW fsW wW), specTrace cfgW fsW wW) ∧
    ∀ d ∈ (specReport cfgW fsW wW).taskdefs.missingTaskDefs,
      d.retryCount = 2 ∧ d.timeoutSeconds = 300 ∧ d.responseTimeoutSeconds = 300 ∧
        d.ownerEmail = (specReport cfgW fsW wW).userId.getD "unknown" :=
  ⟨by decide, c8_taskdef_defaults cfgW fsW wW (specReport cfgW fsW wW) (specTrace cfgW fsW wW)
    (by decide)⟩

/-! ### C7: counting lemmas for invalid-descriptor isolation -/

theorem formsSpecAccF_counts (formsDir : String) (fsys : FS) (en : List String) :
    ∀ files,
      (formsSpecAccF formsDir fsys en files).skippedInvalid =
        files.countP (fun f => !truthy (fsys.readDoc (pathJoin formsDir f)).name) ∧
      (formsSpecAccF formsDir fsys en files).existing.length +
          (formsSpecAccF formsDir fsys en files).missing.length =
        files.countP (fun f => truthy (fsys.readDoc (pathJoin formsDir f)).name) ∧
      (formsSpecAccF formsDir fsys en files).created =
        (formsSpecAccF formsDir fsys en files).missing.length ∧
      (formsSpecAccF formsDir fsys en files).skipped =
        (formsSpecAccF formsDir fsys en files).existing.length
  | [] => by simp [formsSpecAccF]
  | f :: rest => by
    obtain ⟨ih1, ih2, ih3, ih4⟩ := formsSpecAccF_counts formsDir fsys en rest
    cases htr : truthy (fsys.readDoc (pathJoin formsDir f)).name with
    | false =>
      simp only [formsSpecAccF, htr, Bool.not_false, if_true, List.countP_cons]
      refine ⟨by simp [ih1, htr], by simp [ih2, htr], ih3, ih4⟩
    | true =>
      cases hex : en.contains ((fsys.readDoc (pathJoin formsDir f)).name.getD "") with
      | true =>
        simp only [formsSpecAccF, htr, Bool.not_true, Bool.false_eq_true, if_false, hex,
          if_true, List.countP_cons]
        refine ⟨by simp [ih1, htr], ?_, ih3, by simp [ih4]⟩
        simp only [List.length_cons, htr]
        omega
      | false =>
        simp only [formsSpecAccF, htr, Bool.not_true, Bool.false_eq_true, if_false, hex,
          if_true, List.countP_cons]
        refine ⟨by simp [ih1, htr], ?_, by simp [ih3], ih4⟩
        simp only [List.length_cons, htr]
        omega

theorem formsSpecTraceF_len (formsDir : String) (fsys : FS) (en : List String) (api : String) :
    ∀ files, (formsSpecTraceF formsDir fsys en false api files).length =
      (formsSpecAccF formsDir fsys en files).missing.length
  | [] => by simp [formsSpecTraceF, formsSpecAccF]
  | f :: rest => by
    have ih := formsSpecTraceF_len formsDir fsys en api rest
    cases htr : truthy (fsys.readDoc (pathJoin formsDir f)).name with
    | false =>
      simp [formsSpecTraceF, formsSpecAccF, htr, ih]
    | true =>
      cases hex : en.contains ((fsys.readDoc (pathJoin formsDir f)).name.getD "") with
      | true =>
        have hex2 : (fsys.readDoc (pathJoin formsDir f)).name.getD "" ∈ en := by
          simpa [List.contains] using hex
        simp [formsSpecTraceF, formsSpecAccF, htr, hex2, ih]
      | false =>
        have hex2 : ¬ (fsys.readDoc (pathJoin formsDir f)).name.getD "" ∈ en := by
          simpa [List.contains] using hex
        simp [formsSpecTraceF, formsSpecAccF, htr, hex2, ih]

theorem wfSpecAcc_counts (fsys : FS) (w : World) (api : String) (res : String → String) :
    ∀ files,
      (wfSpecAcc fsys w api res files).skippedInvalid =
        files.countP (fun f => !truthy (fsys.readDoc (res f)).name) ∧
      (wfSpecAcc fsys w api res files).existing.length +
          (wfSpecAcc fsys w api res files).missing.length =
        files.countP (fun f => truthy (fsys.readDoc (res f)).name) ∧
      (wfSpecAcc fsys w api res files).created =
        (wfSpecAcc fsys w api res files).missing.length ∧
      (wfSpecAcc fsys w api res files).skipped =
        (wfSpecAcc fsys w api res files).existing.length
  | [] => by simp [wfSpecAcc]
  | f :: rest => by
    obtain ⟨ih1, ih2, ih3, ih4⟩ := wfSpecAcc_counts fsys w api res rest
    cases htr : truthy (fsys.readDoc (res f)).name with
    | false =>
      simp only [wfSpecAcc, htr, Bool.not_false, if_true, List.countP_cons]
      refine ⟨by simp [ih1, htr], by simp [ih2, htr], ih3, ih4⟩
    | true =>
      cases hex : existsAnswer w (wfUrl api ((fsys.readDoc (res f)).name.getD "")) with
      | true =>
        simp only [wfSpecAcc, htr, Bool.not_true, Bool.false_eq_true, if_false, hex,
          if_true, List.countP_cons]
        refine ⟨by simp [ih1, htr], ?_, ih3, by simp [ih4]⟩
        simp only [List.length_cons, htr]
        omega
      | false =>
        simp only [wfSpecAcc, htr, Bool.not_true, Bool.false_eq_true, if_false, hex,
          if_true, List.countP_cons]
        refine ⟨by simp [ih1, htr], ?_, by simp [ih3], ih4⟩
        simp only [List.length_cons, htr]
        omega

theorem wfSpecTraceF_len (fsys : FS) (w : World) (api : String) (res : String → String) :
    ∀ files, (wfSpecTraceF fsys w api res false files).length =
      files.countP (fun f => truthy (fsys.readDoc (res f)).name) +
        (wfSpecAcc fsys w api res files).missing.length
  | [] => by simp [wfSpecTraceF, wfSpecAcc]
  | f :: rest => by
    have ih := wfSpecTraceF_len fsys w api res rest
    cases htr : truthy (fsys.readDoc (res f)).name with
    | false =>
      simp only [wfSpecTraceF, wfSpecAcc, htr, Bool.not_false, if_true, List.countP_cons,
        List.length_append, ih]
      simp [htr]
    | true =>
      cases hex : existsAnswer w (wfUrl api ((fsys.readDoc (res f)).name.getD "")) with
      | true =>
        simp only [wfSpecTraceF, wfSpecAcc, htr, Bool.not_true, Bool.false_eq_true, if_false,
          hex, if_true, List.countP_cons, List.length_append, ih]
        simp [htr]
        omega
      | false =>
        simp only [wfSpecTraceF, wfSpecAcc, htr, Bool.not_true, Bool.false_eq_true, if_false,
          hex, if_true, List.countP_cons, List.length_append, ih]
        simp [htr]
        omega

/-- C7: in the kinds whose descriptors come from local documents (forms,
workflows), a desired set containing one nameless descriptor among N valid
ones skips the nameless one with a warning-level outcome
(`skippedInvalid = 1`, no error) and processes the other N normally: the
existing/missing partition covers exactly the N valid descriptors, each
missing one is created (`created = |missing|`, and in apply mode one
creation call per missing form, plus one existence check per valid
workflow). -/
theorem c7_nameless_isolation :
    (∀ (p : Bool) (w : World) (formsDir : String) (fsys : FS) (api : String) (tk : Option String)
      (en : List String) (A B : List String) (f0 : String),
      (∀ f ∈ A ++ B, truthy (fsys.readDoc (pathJoin formsDir f)).name = true) →
      truthy (fsys.readDoc (pathJoin formsDir f0)).name = false →
      PostsOk w →
      ∃ r t, formsLoop ⟨p, w⟩ formsDir fsys api tk en (A ++ f0 :: B) = (Except.ok r, t) ∧
        r.skippedInvalid = 1 ∧
        r.existing.length + r.missing.length = A.length + B.length ∧
        r.created = r.missing.length ∧ r.skipped = r.existing.length ∧
        (p = false → t.length = r.missing.length)) ∧
    (∀ (p : Bool) (w : World) (fsys : FS) (api : String) (tk : Option String)
      (res : String → String) (A B : List String) (f0 : String),
      (∀ f ∈ A ++ B, truthy (fsys.readDoc (res f)).name = true) →
      truthy (fsys.readDoc (res f0)).name = false →
      PostsOk w →
      ∃ r t, workflowsLoop ⟨p, w⟩ fsys api tk res (A ++ f0 :: B) = (Except.ok r, t) ∧
        r.skippedInvalid = 1 ∧
        r.existing.length + r.missing.length = A.length + B.length ∧
        r.created = r.missing.length ∧ r.skipped = r.existing.length ∧
        (p = false → t.length = (A.length + B.length) + r.missing.length)) := by
  constructor
  · intro p w formsDir fsys api tk en A B f0 hAB h0 hp
    obtain ⟨h1, h2, h3, h4⟩ := formsSpecAccF_counts formsDir fsys en (A ++ f0 :: B)
    refine ⟨_, _, formsLoop_spec formsDir fsys w api tk en p hp (A ++ f0 :: B), ?_, ?_, h3, h4, ?_⟩
    · rw [h1, List.countP_append, List.countP_cons]
      have hA : A.countP (fun f => !truthy (fsys.readDoc (pathJoin formsDir f)).name) = 0 :=
        List.countP_eq_zero.mpr (fun f hf => by
          simp [hAB f (List.mem_append_left B hf)])
      have hB : B.countP (fun f => !truthy (fsys.readDoc (pathJoin formsDir f)).name) = 0 :=
        List.countP_eq_zero.mpr (fun f hf => by
          simp [hAB f (List.mem_append_right A hf)])
      simp [hA, hB, h0]
    · rw [h2, List.countP_append, List.countP_cons]
      have hA : A.countP (fun f => truthy (fsys.readDoc (pathJoin formsDir f)).name)
          = A.length :=
        List.countP_eq_length.mpr (fun f hf => hAB f (List.mem_append_left B hf))
      have hB : B.countP (fun f => truthy (fsys.readDoc (pathJoin formsDir f)).name)
          = B.length :=
        List.countP_eq_length.mpr (fun f hf => hAB f (List.mem_append_right A hf))
      simp [hA, hB, h0]
    · intro hpf
      subst hpf
      exact formsSpecTraceF_len formsDir fsys en api (A ++ f0 :: B)
  · intro p w fsys api tk res A B f0 hAB h0 hp
    obtain ⟨h1, h2, h3, h4⟩ := wfSpecAcc_counts fsys w api res (A ++ f0 :: B)
    refine ⟨_, _, workflowsLoop_spec fsys w api tk res p hp (A ++ f0 :: B),
      ?_, ?_, h3, h4, ?_⟩
    · rw [h1, List.countP_append, List.countP_cons]
      have hA : A.countP (fun f => !truthy (fsys.readDoc (res f)).name) = 0 :=
        List.countP_eq_zero.mpr (fun f hf => by
          simp [hAB f (List.mem_append_left B hf)])
      have hB : B.countP (fun f => !truthy (fsys.readDoc (res f)).name) = 0 :=
        List.countP_eq_zero.mpr (fun f hf => by
          simp [hAB f (List.mem_append_right A hf)])
      simp [hA, hB, h0]
    · rw [h2, List.countP_append, List.countP_cons]
      have hA : A.countP (fun f => truthy (fsys.readDoc (res f)).name) = A.length :=
        List.countP_eq_length.mpr (fun f hf => hAB f (List.mem_append_left B hf))
      have hB : B.countP (fun f => truthy (fsys.readDoc (res f)).name) = B.length :=
        List.countP_eq_length.mpr (fun f hf => hAB f (List.mem_append_right A hf))
      simp [hA, hB, h0]
    · intro hpf
      subst hpf
      have hlen := wfSpecTraceF_len fsys w api res (A ++ f0 :: B)
      rw [hlen, List.countP_append, List.countP_cons]
      have hA : A.countP (fun f => truthy (fsys.readDoc (res f)).name) = A.length :=
        List.countP_eq_length.mpr (fun f hf => hAB f (List.mem_append_left B hf))
      have hB : B.countP (fun f => truthy (fsys.readDoc (res f)).name) = B.length :=
        List.countP_eq_length.mpr (fun f hf => hAB f (List.mem_append_right A hf))
      simp [hA, hB, h0]

theorem c7_witness :
    (∃ r t, formsLoop ⟨false, wW⟩ "./forms" fsW "h/api" (some "t") ["FormA"]
        (["a.json"] ++ "c.json" :: ["b.json"]) = (Except.ok r, t) ∧
      r.skippedInvalid = 1 ∧
      r.existing.length + r.missing.length = List.length ["a.json"] + List.length ["b.json"] ∧
      r.created = r.missing.length ∧ r.skipped = r.existing.length ∧
      (false = false → t.length = r.missing.length)) ∧
    (∃ r t, workflowsLoop ⟨false, wW⟩ fsW "h/api" (some "t") (pathJoin "./workflows")
        (["w.json"] ++ "z.json" :: []) = (Except.ok r, t) ∧
      r.skippedInvalid = 1 ∧
      r.existing.length + r.missing.length =
        List.length ["w.json"] + List.length ([] : List String) ∧
      r.created = r.missing.length ∧ r.skipped = r.existing.length ∧
      (false = false →
        t.length = (List.length ["w.json"] + List.length ([] : List String)) +
          r.missing.length)) :=
  ⟨c7_nameless_isolation.1 false wW "./forms" fsW "h/api" (some "t") ["FormA"] ["a.json"]
      ["b.json"] "c.json" (by decide) (by decide) wW_postsOk,
   c7_nameless_isolation.2 false wW fsW "h/api" (some "t") (pathJoin "./workflows") ["w.json"] []
      "z.json" (by decide) (by decide) wW_postsOk⟩

/-! ### C10: the positional `.json` argument -/

/-- C10: (a) the first command-line entry ending in `.json` and not
starting with `-` is selected as the positional workflow file; (b) under
benign conditions, changing only the positional-file component of the
configuration leaves the auth result, the user id, and the
integration/taskdef/forms/prompts outcomes of the run unchanged (only the
workflows pass reads it); (c) with a positional file present (and the
workflows dir existing) the workflows pass processes exactly that single
file, resolved as a filesystem path, instead of scanning the workflows
directory. -/
theorem c10_positional_json :
    (∀ (pre post : List String) (p : String),
      (∀ a ∈ pre, (jsEndsWith a ".json" && !jsStartsWith a "-") = false) →
      (jsEndsWith p ".json" && !jsStartsWith p "-") = true →
      positionalJsonOf (pre ++ p :: post) = some p) ∧
    (∀ (cfg : Config) (fsys : FS) (w : World) (q : Option String), GoodRun cfg fsys w →
      ∃ r t r2 t2, mainRun cfg fsys w = (Except.ok r, t) ∧
        mainRun { cfg with positionalJson := q } fsys w = (Except.ok r2, t2) ∧
        r2.userId = r.userId ∧ r2.integ = r.integ ∧ r2.taskdefs = r.taskdefs ∧
        r2.forms = r.forms ∧ r2.prompts = r.prompts) ∧
    (∀ (env : Env) (workflowsDir : String) (fsys : FS) (api : String) (tk : Option String)
      (pj : String), fsys.workflowsDirExists = true →
      workflowsPass env workflowsDir (some pj) fsys api tk =
        workflowsLoop env fsys api tk fsys.resolve [pj]) := by
  refine ⟨?_, ?_, ?_⟩
  · intro pre post p hpre hp
    unfold positionalJsonOf
    induction pre with
    | nil =>
      rw [List.nil_append]
      exact List.find?_cons_of_pos post hp
    | cons a pre ih =>
      rw [List.cons_append]
      have ha : (jsEndsWith a ".json" && !jsStartsWith a "-") = false :=
        hpre a (List.mem_cons_self a pre)
      rw [List.find?_cons_of_neg _ (by simp [ha])]
      exact ih (fun x hx => hpre x (List.mem_cons_of_mem a hx))
  · intro cfg fsys w q hgood
    obtain ⟨p, no, wd, pd, fd, pj, ev⟩ := cfg
    have hgood2 : GoodRun ⟨p, no, wd, pd, fd, q, ev⟩ fsys w := hgood
    refine ⟨_, _, _, _, mainRun_spec _ fsys w hgood,
      mainRun_spec ⟨p, no, wd, pd, fd, q, ev⟩ fsys w hgood2, rfl, rfl, rfl, rfl, rfl⟩
  · intro env workflowsDir fsys api tk pj hdir
    unfold workflowsPass
    rw [hdir]
    rfl

theorem c10_witness :
    positionalJsonOf (["node", "setup.mjs"] ++ "wf1.json" :: ["--plan"]) = some "wf1.json" ∧
    (∃ r t r2 t2, mainRun cfgW fsW wW = (Except.ok r, t) ∧
      mainRun { cfgW with positionalJson := some "wf1.json" } fsW wW = (Except.ok r2, t2) ∧
      r2.userId = r.userId ∧ r2.integ = r.integ ∧ r2.taskdefs = r.taskdefs ∧
      r2.forms = r.forms ∧ r2.prompts = r.prompts) ∧
    workflowsPass ⟨false, wW⟩ "./workflows" (some "wf1.json") fsW "h/api" (some "t") =
      workflowsLoop ⟨false, wW⟩ fsW "h/api" (some "t") fsW.resolve ["wf1.json"] :=
  ⟨c10_positional_json.1 ["node", "setup.mjs"] ["--plan"] "wf1.json" (by decide) (by decide),
   c10_positional_json.2.1 cfgW fsW wW (some "wf1.json") goodRunW,
   c10_positional_json.2.2 ⟨false, wW⟩ "./workflows" fsW "h/api" (some "t") "wf1.json" rfl⟩

/-! ### C1: plan mode issues only GETs and the token POST -/

theorem planCalls_map_gcall {α : Type} (f : α → String) (l : List α) :
    PlanCalls (l.map (fun a => gcall (f a))) := by
  intro c hc
  obtain ⟨u, hu, rfl⟩ := List.mem_map.mp hc
  rfl

theorem authSection_planCalls (w : World) (ev : EnvVars) (api : String) :
    PlanCalls (authSection ⟨true, w⟩ ev api).2 := by
  unfold authSection
  dsimp only
  split
  · exact PlanCalls.mok _
  · split
    · exact PlanCalls.merr _
    · refine PlanCalls.bind (http_planCalls w _ _ _ _) (fun a => ?_)
      split
      · exact PlanCalls.merr _
      · exact PlanCalls.mok _

theorem modelsLoop_planCalls (w : World) (api integName : String) (tk : Option String) :
    ∀ ms, PlanCalls (modelsLoop ⟨true, w⟩ api integName tk ms).2
  | [] => PlanCalls.nil
  | m :: rest => by
    unfold modelsLoop
    refine PlanCalls.bind ?_ (fun ex => ?_)
    · rw [existsGet_plan]
      exact PlanCalls.nil
    · split
      · exact PlanCalls.bind (modelsLoop_planCalls w api integName tk rest)
          (fun r => PlanCalls.mok _)
      · split
        · exact PlanCalls.bind (modelsLoop_planCalls w api integName tk rest)
            (fun r => PlanCalls.mok _)
        · exact PlanCalls.bind (http_planCalls w _ _ _ _) (fun _ =>
            PlanCalls.bind (modelsLoop_planCalls w api integName tk rest)
              (fun r => PlanCalls.mok _))

theorem integrationPass_planCalls (w : World) (no : Bool) (ev : EnvVars) (api : String)
    (tk : Option String) : PlanCalls (integrationPass ⟨true, w⟩ no ev api tk).2 := by
  unfold integrationPass
  dsimp only
  split
  · exact PlanCalls.mok _
  · split
    · exact PlanCalls.merr _
    · refine PlanCalls.bind ?_ (fun ie => ?_)
      · rw [existsGet_plan]
        exact PlanCalls.nil
      · refine PlanCalls.bind ?_ (fun ic =>
          PlanCalls.bind (modelsLoop_planCalls w api _ tk _) (fun r => PlanCalls.mok _))
        split
        · exact PlanCalls.mok _
        · split
          · exact PlanCalls.mok _
          · exact PlanCalls.bind (http_planCalls w _ _ _ _) (fun _ => PlanCalls.mok _)

theorem taskdefPass_planCalls (w : World) (api : String) (tk uid : Option String) :
    PlanCalls (taskdefPass ⟨true, w⟩ api tk uid).2 := by
  unfold taskdefPass
  rw [taskdefCheckLoop_spec]
  refine PlanCalls.bind (x := (_, WORKER_TASKS.map (fun n => gcall (tdUrl api n))))
    (planCalls_map_gcall (tdUrl api) WORKER_TASKS) (fun r => ?_)
  split
  · exact PlanCalls.mok _
  · exact PlanCalls.bind (http_planCalls w _ _ _ _) (fun _ => PlanCalls.mok _)

theorem formsLoop_planCalls (w : World) (fd : String) (fsys : FS) (api : String)
    (tk : Option String) (en : List String) :
    ∀ files, PlanCalls (formsLoop ⟨true, w⟩ fd fsys api tk en files).2
  | [] => PlanCalls.nil
  | f :: rest => by
    unfold formsLoop
    dsimp only
    split
    · exact PlanCalls.bind (formsLoop_planCalls w fd fsys api tk en rest)
        (fun r => PlanCalls.mok _)
    · split
      · exact PlanCalls.bind (formsLoop_planCalls w fd fsys api tk en rest)
          (fun r => PlanCalls.mok _)
      · exact PlanCalls.bind (http_planCalls w _ _ _ _) (fun _ =>
          PlanCalls.bind (formsLoop_planCalls w fd fsys api tk en rest)
            (fun r => PlanCalls.mok _))

theorem formsPass_planCalls (w : World) (fd : String) (fsys : FS) (api : String)
    (tk : Option String) : PlanCalls (formsPass ⟨true, w⟩ fd fsys api tk).2 := by
  unfold formsPass
  dsimp only
  split
  · exact PlanCalls.mok _
  · split
    · exact PlanCalls.mok _
    · exact PlanCalls.bind (listHumanTemplates_planCalls true w api tk) (fun ts =>
        PlanCalls.bind (formsLoop_planCalls w fd fsys api tk _ _) (fun r => PlanCalls.mok _))

theorem promptsLoop_planCalls (w : World) (pd : String) (fsys : FS) (api : String)
    (tk : Option String) (em : String) :
    ∀ specs, PlanCalls (promptsLoop ⟨true, w⟩ pd fsys api tk em specs).2
  | [] => PlanCalls.nil
  | ps :: rest => by
    unfold promptsLoop
    dsimp only
    split
    · exact PlanCalls.bind (promptsLoop_planCalls w pd fsys api tk em rest)
        (fun r => PlanCalls.mok _)
    · refine PlanCalls.bind (existsCheck_planCalls true w _ tk) (fun ex => ?_)
      split
      · exact PlanCalls.bind (promptsLoop_planCalls w pd fsys api tk em rest)
          (fun r => PlanCalls.mok _)
      · exact PlanCalls.bind (http_planCalls w _ _ _ _) (fun _ =>
          PlanCalls.bind (promptsLoop_planCalls w pd fsys api tk em rest)
            (fun r => PlanCalls.mok _))

theorem promptsPass_planCalls (w : World) (pd : String) (pma : Option String) (fsys : FS)
    (api : String) (tk : Option String) :
    PlanCalls (promptsPass ⟨true, w⟩ pd pma fsys api tk).2 :=
  promptsLoop_planCalls w pd fsys api tk _ REQUIRED_PROMPTS

theorem workflowsLoop_planCalls (w : World) (fsys : FS) (api : String) (tk : Option String)
    (res : String → String) :
    ∀ files, PlanCalls (workflowsLoop ⟨true, w⟩ fsys api tk res files).2
  | [] => PlanCalls.nil
  | f :: rest => by
    unfold workflowsLoop
    dsimp only
    split
    · exact PlanCalls.bind (workflowsLoop_planCalls w fsys api tk res rest)
        (fun r => PlanCalls.mok _)
    · refine PlanCalls.bind (existsCheck_planCalls true w _ tk) (fun ex => ?_)
      split
      · exact PlanCalls.bind (workflowsLoop_planCalls w fsys api tk res rest)
          (fun r => PlanCalls.mok _)
      · exact PlanCalls.bind (http_planCalls w _ _ _ _) (fun _ =>
          PlanCalls.bind (workflowsLoop_planCalls w fsys api tk res rest)
            (fun r => PlanCalls.mok _))

theorem workflowsPass_planCalls (w : World) (wd : String) (pj : Option String) (fsys : FS)
    (api : String) (tk : Option String) :
    PlanCalls (workflowsPass ⟨true, w⟩ wd pj fsys api tk).2 := by
  unfold workflowsPass
  split
  · exact PlanCalls.merr _
  · cases pj with
    | some p => exact workflowsLoop_planCalls w fsys api tk fsys.resolve [p]
    | none => exact workflowsLoop_planCalls w fsys api tk (pathJoin wd) _

theorem mainRun_planCalls (cfg : Config) (fsys : FS) (w : World) (hpl : cfg.plan = true) :
    PlanCalls (mainRun cfg fsys w).2 := by
  obtain ⟨p, no, wd, pd, fd, pj, ev⟩ := cfg
  have hp : p = true := hpl
  subst hp
  unfold mainRun
  refine PlanCalls.bind (authSection_planCalls w ev _) (fun tok => ?_)
  refine PlanCalls.bind (http_planCalls w _ _ _ _) (fun x => ?_)
  refine PlanCalls.bind (PlanCalls.tryCatch (http_planCalls w _ _ _ _)) (fun ui => ?_)
  refine PlanCalls.bind (integrationPass_planCalls w no ev _ tok) (fun integ => ?_)
  refine PlanCalls.bind (taskdefPass_planCalls w _ tok _) (fun tds => ?_)
  refine PlanCalls.bind (formsPass_planCalls w fd fsys _ tok) (fun frm => ?_)
  refine PlanCalls.bind (promptsPass_planCalls w pd _ fsys _ tok) (fun prm => ?_)
  exact PlanCalls.bind (workflowsPass_planCalls w wd pj fsys _ tok) (fun wfs => PlanCalls.mok _)

theorem modelsSpecAcc_plan (w : World) (api integName : String) :
    ∀ ms, modelsSpecAcc w api integName true ms = ⟨[], ms, 0, 0⟩
  | [] => rfl
  | m :: rest => by
    simp [modelsSpecAcc, modelsSpecAcc_plan w api integName rest]

theorem promptsSpecAccF_created (pd : String) (fsys : FS) (w : World) (api : String) :
    ∀ specs, (promptsSpecAccF pd fsys w api specs).created =
      (promptsSpecAccF pd fsys w api specs).missing.length
  | [] => rfl
  | ps :: rest => by
    have ih := promptsSpecAccF_created pd fsys w api rest
    unfold promptsSpecAccF
    dsimp only
    split
    · simpa using ih
    · split
      · simpa using ih
      · simpa using ih

theorem formsSpecReport_created (fd : String) (fsys : FS) (w : World) (api : String) :
    (formsSpecReport fd fsys w api).created = (formsSpecReport fd fsys w api).missing.length := by
  unfold formsSpecReport
  split
  · rfl
  · dsimp only
    split
    · rfl
    · exact (formsSpecAccF_counts fd fsys (existingNamesSpec w api) _).2.2.1

theorem wfSpecReport_created (wd : String) (pj : Option String) (fsys : FS) (w : World)
    (api : String) :
    (wfSpecReport wd pj fsys w api).created = (wfSpecReport wd pj fsys w api).missing.length := by
  unfold wfSpecReport
  cases pj with
  | some p => exact (wfSpecAcc_counts fsys w api fsys.resolve [p]).2.2.1
  | none => exact (wfSpecAcc_counts fsys w api (pathJoin wd) _).2.2.1

/-- C1: in plan mode (`--plan`/`--dry-run`), for every run (any
configuration, file system and remote behaviour) every request that
reaches the network is a GET or a POST to a `/token` URL — every other
request is suppressed inside `http` before the network — and, under benign
conditions, the would-be-created counts are still computed and reported:
the run completes with a report whose per-kind created counters equal the
sizes of the computed missing sets (for the integration/model kinds, plan
mode reports every configured model as missing and performs no
creations). -/
theorem c1_plan_mode :
    (∀ (cfg : Config) (fsys : FS) (w : World), cfg.plan = true →
      ∀ c ∈ (mainRun cfg fsys w).2, allowInPlan c.method c.url = true) ∧
    (∀ (cfg : Config) (fsys : FS) (w : World), cfg.plan = true → GoodRun cfg fsys w →
      ∃ r t, mainRun cfg fsys w = (Except.ok r, t) ∧
        r.forms.created = r.forms.missing.length ∧
        r.prompts.created = r.prompts.missing.length ∧
        r.workflows.created = r.workflows.missing.length ∧
        (cfg.noOpenai = false →
          r.integ.modelsMissing = parseModels cfg.envVars.openaiModels ∧
            r.integ.modelsAdded = 0 ∧ r.integ.integCreated = false)) := by
  constructor
  · exact fun cfg fsys w h => mainRun_planCalls cfg fsys w h
  · intro cfg fsys w hpl hgood
    refine ⟨_, _, mainRun_spec cfg fsys w hgood, ?_, ?_, ?_, ?_⟩
    · exact formsSpecReport_created cfg.formsDir fsys w _
    · exact promptsSpecAccF_created cfg.promptsDir fsys w _ REQUIRED_PROMPTS
    · exact wfSpecReport_created cfg.workflowsDir cfg.positionalJson fsys w _
    · intro hno
      show (integSpecReport cfg.plan cfg.noOpenai cfg.envVars w _).modelsMissing = _ ∧
        (integSpecReport cfg.plan cfg.noOpenai cfg.envVars w _).modelsAdded = 0 ∧
        (integSpecReport cfg.plan cfg.noOpenai cfg.envVars w _).integCreated = false
      rw [hpl, hno]
      unfold integSpecReport
      dsimp only
      rw [modelsSpecAcc_plan]
      simp

theorem c1_witness :
    (∀ c ∈ (mainRun cfgWPlan fsW wW).2, allowInPlan c.method c.url = true) ∧
    (∃ r t, mainRun cfgWPlan fsW wW = (Except.ok r, t) ∧
      r.forms.created = r.forms.missing.length ∧
      r.prompts.created = r.prompts.missing.length ∧
      r.workflows.created = r.workflows.missing.length ∧
      (cfgWPlan.noOpenai = false →
        r.integ.modelsMissing = parseModels cfgWPlan.envVars.openaiModels ∧
          r.integ.modelsAdded = 0 ∧ r.integ.integCreated = false)) :=
  ⟨c1_plan_mode.1 cfgWPlan fsW wW rfl, c1_plan_mode.2 cfgWPlan fsW wW rfl goodRunWPlan⟩

/-! ### C4: plan/apply parity of decisions -/

def wwRespC4 (m u : String) : Nat × RespBody :=
  if m == "POST" then (200, RespBody.empty)
  else if u == "h/api/version" then (200, RespBody.text "1")
  else if u == "h/api/integrations/provider/openai/integration/gpt-4.1" then
    (200, RespBody.empty)
  else (404, RespBody.empty)

/-- A world in which the model `gpt-4.1` exists remotely. -/
def wC4 : World := ⟨fun m u => FetchResult.resp (wwRespC4 m u).1 (wwRespC4 m u).2⟩

/-- C4 counterexample: with a fixed set of existence answers in which the
model `gpt-4.1` exists, a plan-mode run reports that model as missing (the
integration/model check `existsGet` answers `false` in plan mode without
asking the world) while the apply-mode run reports it as existing — the
two modes do NOT compute identical partitions for every resource kind. -/
theorem c4_counterexample :
    (mainRun cfgWPlan fsW wC4).1 = Except.ok (specReport cfgWPlan fsW wC4) ∧
    (mainRun cfgW fsW wC4).1 = Except.ok (specReport cfgW fsW wC4) ∧
    (specReport cfgWPlan fsW wC4).integ.modelsMissing.contains "gpt-4.1" = true ∧
    (specReport cfgW fsW wC4).integ.modelsExisting.contains "gpt-4.1" = true ∧
    (specReport cfgWPlan fsW wC4).integ.modelsMissing ≠
      (specReport cfgW fsW wC4).integ.modelsMissing := by
  refine ⟨by decide, by decide, by decide, by decide, by decide⟩

theorem modelsSpecAcc_added (w : World) (api integName : String) :
    ∀ ms, (modelsSpecAcc w api integName false ms).added =
      (modelsSpecAcc w api integName false ms).missing.length
  | [] => rfl
  | m :: rest => by
    have ih := modelsSpecAcc_added w api integName rest
    unfold modelsSpecAcc
    dsimp only
    split
    · simp at *
    · split
      · simpa using ih
      · simpa using ih

theorem integSpecReport_added (no : Bool) (ev : EnvVars) (w : World) (api : String) :
    (integSpecReport false no ev w api).modelsAdded =
      (integSpecReport false no ev w api).modelsMissing.length := by
  unfold integSpecReport
  cases no with
  | true => rfl
  | false =>
    dsimp only
    simp only [Bool.false_eq_true, if_false]
    exact modelsSpecAcc_added w api _ _

/-- C4 (amended): for a fixed set of existence answers (a benign world), a
plan-mode run and an apply-mode run compute identical existing/missing
partitions for the taskdef, form, prompt and workflow kinds (and the same
user id); for the integration/model kinds plan mode always reports
everything as missing, so parity fails there (see the counterexample).
Plan mode issues zero mutating calls, while in apply mode each kind's
created count equals the size of its missing set. -/
theorem c4_plan_apply_parity (cfg : Config) (fsys : FS) (w : World)
    (hA : cfg.plan = false) (hgood : GoodRun cfg fsys w) :
    ∃ rP tP rA tA,
      mainRun { cfg with plan := true } fsys w = (Except.ok rP, tP) ∧
      mainRun cfg fsys w = (Except.ok rA, tA) ∧
      rP.userId = rA.userId ∧ rP.taskdefs = rA.taskdefs ∧ rP.forms = rA.forms ∧
      rP.prompts = rA.prompts ∧ rP.workflows = rA.workflows ∧
      (∀ c ∈ tP, allowInPlan c.method c.url = true) ∧
      rA.forms.created = rA.forms.missing.length ∧
      rA.prompts.created = rA.prompts.missing.length ∧
      rA.workflows.created = rA.workflows.missing.length ∧
      rA.integ.modelsAdded = rA.integ.modelsMissing.length ∧
      (cfg.noOpenai = false →
        rP.integ.modelsMissing = parseModels cfg.envVars.openaiModels ∧
          rP.integ.modelsAdded = 0) := by
  obtain ⟨p, no, wd, pd, fd, pj, ev⟩ := cfg
  have hp : p = false := hA
  subst hp
  have hgood2 : GoodRun ⟨true, no, wd, pd, fd, pj, ev⟩ fsys w := hgood
  have hcfg : ({ (⟨false, no, wd, pd, fd, pj, ev⟩ : Config) with plan := true } : Config) =
      ⟨true, no, wd, pd, fd, pj, ev⟩ := rfl
  rw [hcfg]
  refine ⟨_, _, _, _, mainRun_spec ⟨true, no, wd, pd, fd, pj, ev⟩ fsys w hgood2,
    mainRun_spec ⟨false, no, wd, pd, fd, pj, ev⟩ fsys w hgood,
    rfl, rfl, rfl, rfl, rfl, ?_, ?_, ?_, ?_, ?_, ?_⟩
  · have := mainRun_planCalls ⟨true, no, wd, pd, fd, pj, ev⟩ fsys w rfl
    rw [mainRun_spec ⟨true, no, wd, pd, fd, pj, ev⟩ fsys w hgood2] at this
    exact this
  · exact formsSpecReport_created fd fsys w _
  · exact promptsSpecAccF_created pd fsys w _ REQUIRED_PROMPTS
  · exact wfSpecReport_created wd pj fsys w _
  · exact integSpecReport_added no ev w _
  · intro hno
    have hno2 : no = false := hno
    subst hno2
    show (integSpecReport true false ev w _).modelsMissing = _ ∧
      (integSpecReport true false ev w _).modelsAdded = 0
    unfold integSpecReport
    dsimp only
    rw [modelsSpecAcc_plan]
    simp

theorem c4_witness :
    ∃ rP tP rA tA,
      mainRun { cfgW with plan := true } fsW wW = (Except.ok rP, tP) ∧
      mainRun cfgW fsW wW = (Except.ok rA, tA) ∧
      rP.userId = rA.userId ∧ rP.taskdefs = rA.taskdefs ∧ rP.forms = rA.forms ∧
      rP.prompts = rA.prompts ∧ rP.workflows = rA.workflows ∧
      (∀ c ∈ tP, allowInPlan c.method c.url = true) ∧
      rA.forms.created = rA.forms.missing.length ∧
      rA.prompts.created = rA.prompts.missing.length ∧
      rA.workflows.created = rA.workflows.missing.length ∧
      rA.integ.modelsAdded = rA.integ.modelsMissing.length ∧
      (cfgW.noOpenai = false →
        rP.integ.modelsMissing = parseModels cfgW.envVars.openaiModels ∧
          rP.integ.modelsAdded = 0) :=
  c4_plan_apply_parity cfgW fsW wW rfl goodRunW

/-! ### C3: one batched taskdef creation, per-item creation elsewhere -/

theorem filter_post_map_gcall {α : Type} (f : α → String) (l : List α) :
    (l.map (fun a => gcall (f a))).filter (fun c => c.method == "POST") = [] := by
  induction l with
  | nil => rfl
  | cons a l ih => simp [gcall, ih]

theorem modelsSpecTrace_postCount (w : World) (api integName : String) :
    ∀ ms, ((modelsSpecTrace w api integName false ms).filter
        (fun c => c.method == "POST")).length =
      (modelsSpecAcc w api integName false ms).missing.length
  | [] => rfl
  | m :: rest => by
    have ih := modelsSpecTrace_postCount w api integName rest
    unfold modelsSpecTrace modelsSpecAcc
    dsimp only
    cases hex : existsAnswer w (modelUrl api integName m) with
    | true => simpa [hex, gcall] using ih
    | false => simp [hex, gcall, ih]

theorem formsSpecTraceF_postCount (fd : String) (fsys : FS) (en : List String) (api : String) :
    ∀ files, ((formsSpecTraceF fd fsys en false api files).filter
        (fun c => c.method == "POST")).length =
      (formsSpecAccF fd fsys en files).missing.length
  | [] => rfl
  | f :: rest => by
    have ih := formsSpecTraceF_postCount fd fsys en api rest
    unfold formsSpecTraceF formsSpecAccF
    dsimp only
    cases htr : truthy (fsys.readDoc (pathJoin fd f)).name with
    | false => simpa [htr] using ih
    | true =>
      cases hex : en.contains ((fsys.readDoc (pathJoin fd f)).name.getD "") with
      | true =>
        have hex2 : (fsys.readDoc (pathJoin fd f)).name.getD "" ∈ en := by
          simpa [List.contains] using hex
        simpa [htr, hex2] using ih
      | false =>
        have hex2 : ¬ (fsys.readDoc (pathJoin fd f)).name.getD "" ∈ en := by
          simpa [List.contains] using hex
        simpa [htr, hex2] using ih

theorem promptsSpecTraceF_postCount (pd : String) (fsys : FS) (w : World) (api em : String) :
    ∀ specs, ((promptsSpecTraceF pd fsys w api em false specs).filter
        (fun c => c.method == "POST")).length =
      (promptsSpecAccF pd fsys w api specs).missing.length
  | [] => rfl
  | ps :: rest => by
    have ih := promptsSpecTraceF_postCount pd fsys w api em rest
    unfold promptsSpecTraceF promptsSpecAccF
    dsimp only
    cases hfe : fsys.fileExists (pathJoin pd ps.file) with
    | false => simpa [hfe] using ih
    | true =>
      cases hex : existsAnswer w (promptUrl api ps.name) with
      | true => simpa [hfe, hex, gcall] using ih
      | false => simp [hfe, hex, gcall, ih]

theorem wfSpecTraceF_postCount (fsys : FS) (w : World) (api : String) (res : String → String) :
    ∀ files, ((wfSpecTraceF fsys w api res false files).filter
        (fun c => c.method == "POST")).length =
      (wfSpecAcc fsys w api res files).missing.length
  | [] => rfl
  | f :: rest => by
    have ih := wfSpecTraceF_postCount fsys w api res rest
    unfold wfSpecTraceF wfSpecAcc
    dsimp only
    cases htr : truthy (fsys.readDoc (res f)).name with
    | false => simpa [htr] using ih
    | true =>
      cases hex : existsAnswer w (wfUrl api ((fsys.readDoc (res f)).name.getD "")) with
      | true => simpa [htr, hex, gcall] using ih
      | false => simp [htr, hex, gcall, ih]

/-- C3: in apply mode (creation POSTs succeeding), the task-definition
pass issues EXACTLY ONE creation call — a single POST to the taskdefs
endpoint whose body carries the whole array of missing definitions — and
none when nothing is missing; for every other kind (integration, models,
forms, prompts, workflows) each missing descriptor is created with its
own individual call: the integration pass issues one POST when the
integration itself is missing plus one POST per missing model, and the
model/form/prompt/workflow loops issue exactly one POST per missing
descriptor. -/
theorem c3_batch_vs_per_item :
    (∀ (w : World) (api : String) (tk uid : Option String) (r : TaskDefReport) (t : Trace),
      PostsOk w → taskdefPass ⟨false, w⟩ api tk uid = (Except.ok r, t) →
      (r.missingTaskDefs.isEmpty = false →
        t.filter (fun c => c.method == "POST") =
          [⟨"POST", tdCreateUrl api, ReqBody.taskdefList r.missingTaskDefs⟩]) ∧
      (r.missingTaskDefs.isEmpty = true → t.filter (fun c => c.method == "POST") = [])) ∧
    (∀ (w : World) (ev : EnvVars) (api : String) (tk : Option String)
      (r : IntegReport) (t : Trace), NoGetErr w → PostsOk w →
      mustEnvOk ev.openaiApiKey = true →
      integrationPass ⟨false, w⟩ false ev api tk = (Except.ok r, t) →
      (t.filter (fun c => c.method == "POST")).length =
        (if r.integExisting then 0 else 1) + r.modelsMissing.length) ∧
    (∀ (w : World) (api integName : String) (tk : Option String) (ms : List String)
      (r : ModelsAcc) (t : Trace), NoGetErr w → PostsOk w →
      modelsLoop ⟨false, w⟩ api integName tk ms = (Except.ok r, t) →
      (t.filter (fun c => c.method == "POST")).length = r.missing.length) ∧
    (∀ (w : World) (fd : String) (fsys : FS) (api : String) (tk : Option String)
      (en : List String) (files : List String) (r : FormsAcc) (t : Trace), PostsOk w →
      formsLoop ⟨false, w⟩ fd fsys api tk en files = (Except.ok r, t) →
      (t.filter (fun c => c.method == "POST")).length = r.missing.length) ∧
    (∀ (w : World) (pd : String) (fsys : FS) (api : String) (tk : Option String) (em : String)
      (specs : List PromptSpec) (r : PromptsReport) (t : Trace),
      NoGetErr w → PostsOk w → '/' ∉ em.data →
      promptsLoop ⟨false, w⟩ pd fsys api tk em specs = (Except.ok r, t) →
      (t.filter (fun c => c.method == "POST")).length = r.missing.length) ∧
    (∀ (w : World) (fsys : FS) (api : String) (tk : Option String) (res : String → String)
      (files : List String) (r : WorkflowsReport) (t : Trace), PostsOk w →
      workflowsLoop ⟨false, w⟩ fsys api tk res files = (Except.ok r, t) →
      (t.filter (fun c => c.method == "POST")).length = r.missing.length) := by
  refine ⟨?_, ?_, ?_, ?_, ?_, ?_⟩
  · intro w api tk uid r t hp h
    rw [taskdefPass_spec false w api tk uid hp] at h
    obtain ⟨h1, h2⟩ := Prod.mk.injEq .. ▸ h
    cases h1
    subst h2
    constructor
    · intro hne
      unfold taskdefSpecTrace
      rw [List.filter_append, filter_post_map_gcall]
      simp only [taskdefSpecReport] at hne ⊢
      simp [hne]
    · intro hemp
      unfold taskdefSpecTrace
      rw [List.filter_append, filter_post_map_gcall]
      simp only [taskdefSpecReport] at hemp ⊢
      simp [hemp]
  · intro w ev api tk r t hg hp hk h
    rw [integrationPass_spec false false ev w api tk hg hp (Or.inr hk)] at h
    obtain ⟨h1, h2⟩ := Prod.mk.injEq .. ▸ h
    cases h1
    subst h2
    unfold integSpecTrace integSpecReport
    dsimp only
    cases hie : existsAnswer w (integUrlOf api (ev.openaiIntegrationName.getD "openai")) with
    | true =>
      simp [hie, gcall, modelsSpecTrace_postCount w api (ev.openaiIntegrationName.getD "openai")]
    | false =>
      simp [hie, gcall, modelsSpecTrace_postCount w api (ev.openaiIntegrationName.getD "openai"),
        Nat.add_comm]
  · intro w api integName tk ms r t hg hp h
    rw [modelsLoop_spec w api integName tk false hg hp ms] at h
    obtain ⟨h1, h2⟩ := Prod.mk.injEq .. ▸ h
    cases h1
    subst h2
    exact modelsSpecTrace_postCount w api integName ms
  · intro w fd fsys api tk en files r t hp h
    rw [formsLoop_spec fd fsys w api tk en false hp files] at h
    obtain ⟨h1, h2⟩ := Prod.mk.injEq .. ▸ h
    cases h1
    subst h2
    exact formsSpecTraceF_postCount fd fsys en api files
  · intro w pd fsys api tk em specs r t hg hp hem h
    rw [promptsLoop_spec pd fsys w api tk em false hg hp hem specs] at h
    obtain ⟨h1, h2⟩ := Prod.mk.injEq .. ▸ h
    cases h1
    subst h2
    exact promptsSpecTraceF_postCount pd fsys w api em specs
  · intro w fsys api tk res files r t hp h
    rw [workflowsLoop_spec fsys w api tk res false hp files] at h
    obtain ⟨h1, h2⟩ := Prod.mk.injEq .. ▸ h
    cases h1
    subst h2
    exact wfSpecTraceF_postCount fsys w api res files

theorem c3_witness :
    ((taskdefSpecTrace wW "h/api" (some "u") false).filter (fun c => c.method == "POST") =
      [⟨"POST", tdCreateUrl "h/api",
        ReqBody.taskdefList (taskdefSpecReport wW "h/api" (some "u")).missingTaskDefs⟩]) ∧
    ((integSpecTrace false false envW wW "h/api").filter
        (fun c => c.method == "POST")).length =
      (if (integSpecReport false false envW wW "h/api").integExisting then 0 else 1) +
        (integSpecReport false false envW wW "h/api").modelsMissing.length :=
  ⟨(c3_batch_vs_per_item.1 wW "h/api" (some "t") (some "u")
      (taskdefSpecReport wW "h/api" (some "u"))
      (taskdefSpecTrace wW "h/api" (some "u") false)
      wW_postsOk (by decide)).1 (by decide),
   c3_batch_vs_per_item.2.1 wW envW "h/api" (some "t")
      (integSpecReport false false envW wW "h/api")
      (integSpecTrace false false envW wW "h/api")
      wW_noGetErr wW_postsOk (by decide)
      (integrationPass_spec false false envW wW "h/api" (some "t")
        wW_noGetErr wW_postsOk (Or.inr (by decide)))⟩

/-! ### C5: transport failure on a required creation call -/

/-- Like `cfgW` but with `--no-openai`, so the only creation POSTs a run
attempts are forms/prompts/workflows ones. -/
def cfg5 : Config :=
  ⟨false, true, "./workflows", "./workflows/prompts", "./forms", none, envW⟩

/-- GET answers for the C5 worlds: version and userInfo respond 200, the
template list is empty, every worker taskdef already exists, everything
else is absent. -/
def wwRespG (u : String) : Nat × RespBody :=
  if u == "h/api/version" then (200, RespBody.text "1")
  else if u == "h/api/token/userInfo" then
    (200, RespBody.userInfoResp (some "User") (some "u@x"))
  else if u == "h/api/human/template" then (200, RespBody.templates [])
  else if jsStartsWith u "h/api/metadata/taskdefs/" then (200, RespBody.empty)
  else (404, RespBody.empty)

/-- Every POST is rejected at the network layer. -/
def w5a : World :=
  ⟨fun m u => if m == "POST" then FetchResult.netError
    else FetchResult.resp (wwRespG u).1 (wwRespG u).2⟩

/-- Every POST comes back with status 500. -/
def w5b : World :=
  ⟨fun m u => if m == "POST" then FetchResult.resp 500 RespBody.empty
    else FetchResult.resp (wwRespG u).1 (wwRespG u).2⟩

/-- Form creations succeed, prompt creations come back 500. -/
def w5c : World :=
  ⟨fun m u =>
    if m == "POST" then
      if jsStartsWith u "h/api/prompts/" then FetchResult.resp 500 RespBody.empty
      else FetchResult.resp 200 RespBody.empty
    else FetchResult.resp (wwRespG u).1 (wwRespG u).2⟩

/-- The calls every C5 run makes before reaching the forms creations. -/
def t5head : Trace :=
  [gcall "h/api/version", gcall "h/api/token/userInfo",
   gcall (tdUrl "h/api" "healthcare_provider_finder"),
   gcall (tdUrl "h/api" "communication_drafter"),
   gcall (tdUrl "h/api" "medical_system_navigator"),
   gcall (tdUrl "h/api" "prescription_transition_manager"),
   gcall (formListUrl "h/api")]

/-- C5 counterexample: a 500 on the first form-creation POST does NOT
abort only the forms pass — it aborts the ENTIRE run.  The trace ends at
the failing call: the second form is never reconciled and the prompts and
workflows passes never run (no call to any `/prompts/` or
`/metadata/workflow` URL), the error propagates out of `main`, and the
process exits 1.  This refutes "aborts only the current resource kind's
pass ... the run otherwise proceeds". -/
theorem c5_counterexample :
    mainRun cfg5 fsW w5b =
      (Except.error (RunErr.httpError 500 (formCreateUrl "h/api")),
       t5head ++ [⟨"POST", formCreateUrl "h/api", ReqBody.formDoc ⟨some "FormA", "fa"⟩⟩]) ∧
    runExit cfg5 fsW w5b = 1 ∧
    ((mainRun cfg5 fsW w5b).2.all
      (fun c => !jsStartsWith c.url "h/api/prompts/" &&
                !jsStartsWith c.url "h/api/metadata/workflow")) = true :=
  ⟨by decide, by decide, by decide⟩

/-- C5 (amended): a transport failure (network rejection or unexpected
status) on a creation call the core required to succeed is attempted
exactly once (no retry), nothing at all runs after it — the failure aborts
the whole remaining run, not just the current kind's pass — resources
created before the failure are not rolled back (their creation calls stand
and no call follows the failing one), and the process exits non-zero. -/
theorem c5_transport_failure_amended :
    (∀ (cfg : Config) (fsys : FS) (w : World) (e : RunErr),
      (mainRun cfg fsys w).1 = Except.error e → runExit cfg fsys w = 1) ∧
    ((mainRun cfg5 fsW w5b).2.countP (fun c => c.method == "POST") = 1 ∧
      (mainRun cfg5 fsW w5b).2.getLast? =
        some ⟨"POST", formCreateUrl "h/api", ReqBody.formDoc ⟨some "FormA", "fa"⟩⟩) ∧
    mainRun cfg5 fsW w5a =
      (Except.error (RunErr.netError (formCreateUrl "h/api")),
       t5head ++ [⟨"POST", formCreateUrl "h/api", ReqBody.formDoc ⟨some "FormA", "fa"⟩⟩]) ∧
    mainRun cfg5 fsW w5c =
      (Except.error (RunErr.httpError 500
        (promptCreateUrl "h/api" "MedicalUserIntakeAnalyzer" "medical-user-intake.json"
          (encodeURIComponent "openai:gpt-4o-mini"))),
       t5head ++
        [⟨"POST", formCreateUrl "h/api", ReqBody.formDoc ⟨some "FormA", "fa"⟩⟩,
         ⟨"POST", formCreateUrl "h/api", ReqBody.formDoc ⟨some "FormB", "fb"⟩⟩,
         gcall (promptUrl "h/api" "MedicalUserIntakeAnalyzer"),
         ⟨"POST",
          promptCreateUrl "h/api" "MedicalUserIntakeAnalyzer" "medical-user-intake.json"
            (encodeURIComponent "openai:gpt-4o-mini"),
          ReqBody.promptText "prompt-text"⟩]) := by
  refine ⟨?_, by decide, by decide, by decide⟩
  intro cfg fsys w e h
  unfold runExit
  rw [h]

theorem c5_witness : runExit cfg5 fsW w5b = 1 :=
  c5_transport_failure_amended.1 cfg5 fsW w5b
    (RunErr.httpError 500 (formCreateUrl "h/api")) (by decide)
